import Mathlib

/-!
# huobiapi-websocket-demo: the subscribe codec, the envelope decoder and the session loop

A shallow embedding of `main.go`.

* `SubRequest`, `Tick`, `SubResponse` are the three Go structs.
* `jsonMarshal` is `json.Marshal` specialised to `*SubRequest` (struct tags
  `sub`, `id`, `freq-ms,omitempty`).
* `jsonUnmarshal` is `json.Unmarshal` specialised to `*SubResponse`: it
  writes into the value it is handed and leaves every field the document
  does not mention as it was.
* `gzipCompress` is the function of that name (which inflates).
* `decodeDocument` reads bytes back as UTF-8 and then as a JSON object; what
  `jsonMarshal` writes is checked against it.
* `step` / `run` give the interleavings of `main` (the supervisor) and the
  reader goroutine; the outcome of every I/O call and the case taken by each
  `select` are supplied from outside as a `Choice`. The close frame the
  websocket library sends back from inside `ReadMessage` when the peer closes
  is the event `closeReply`.

Library code that is not part of the repository (gzip, the JSON syntax
scanner, `strconv.ParseFloat`) is a field of `Lib`.
-/

namespace Huobi

/-! ## Data model -/

/-- A Go `[]byte`: every element is below 256. -/
abbrev Bytes := List Nat

/-- A Go `float64`, kept as its IEEE 754 binary64 bit pattern; `0` is `+0.0`,
the zero value of the type. -/
abbrev Float64 := Nat

def btcKlineTopic : String := "market.btcusdt.kline.1min"

def eosKlineTopic : String := "market.eosusdt.kline.1min"

/-- SubRequest keyword to subscribe huobi api. -/
structure SubRequest where
  Sub : String
  ID : String
  FreqMs : Int
  deriving DecidableEq, Repr

/-- Tick kline info. -/
structure Tick where
  ID : Int
  Open : Float64
  Close : Float64
  Low : Float64
  High : Float64
  Amount : Float64
  Volume : Float64
  Count : Int
  deriving DecidableEq, Repr

/-- SubResponse huobi api response. -/
structure SubResponse where
  Ch : String
  Ts : Int
  Tick : Tick
  deriving DecidableEq, Repr

/-- The Go zero value `Tick{}`. -/
def Tick.zero : Tick := ⟨0, 0, 0, 0, 0, 0, 0, 0⟩

/-- The Go zero value `SubResponse{}`. -/
def SubResponse.zero : SubResponse := ⟨"", 0, Tick.zero⟩

/-! ## Bytes of a string -/

/-- UTF-8 encoding of one code point. -/
def utf8Char (c : Char) : Bytes :=
  let n := c.toNat
  if n < 0x80 then [n]
  else if n < 0x800 then [0xC0 + n / 64, 0x80 + n % 64]
  else if n < 0x10000 then [0xE0 + n / 4096, 0x80 + n / 64 % 64, 0x80 + n % 64]
  else [0xF0 + n / 262144, 0x80 + n / 4096 % 64, 0x80 + n / 64 % 64, 0x80 + n % 64]

/-- The conversion `[]byte(s)`. -/
def bytesOf (s : String) : Bytes := s.toList.flatMap utf8Char

/-! ## `json.Marshal` on a `*SubRequest` -/

def hexDigit (n : Nat) : Char := "0123456789abcdef".toList.getD n '0'

/-- How the encoder writes one code point of a string value (HTML escaping is
on, as it is for `json.Marshal`). `\b` and `\f` get the two-character escape
of Go 1.22 and later. -/
def escapeRune (c : Char) : List Char :=
  let bs := Char.ofNat 92
  if c = bs then [bs, bs]
  else if c = Char.ofNat 34 then [bs, Char.ofNat 34]
  else if c.toNat = 8 then [bs, 'b']
  else if c.toNat = 12 then [bs, 'f']
  else if c.toNat = 10 then [bs, 'n']
  else if c.toNat = 13 then [bs, 'r']
  else if c.toNat = 9 then [bs, 't']
  else if c.toNat < 0x20 ∨ c = '<' ∨ c = '>' ∨ c = '&' then
    [bs, 'u', '0', '0', hexDigit (c.toNat / 16), hexDigit (c.toNat % 16)]
  else if c.toNat = 0x2028 ∨ c.toNat = 0x2029 then
    [bs, 'u', '2', '0', '2', hexDigit (c.toNat % 16)]
  else [c]

/-- A string value as JSON text: quoted and escaped. -/
def encodeString (s : String) : String :=
  String.mk (Char.ofNat 34 :: (s.toList.flatMap escapeRune ++ [Char.ofNat 34]))

/-- Decimal text of a Go `int` (`strconv.AppendInt(_, n, 10)`). -/
def formatInt (n : Int) : String :=
  if n < 0 then "-" ++ Nat.repr n.natAbs else Nat.repr n.toNat

/-- A field value as the struct encoder sees it. -/
inductive EncValue where
  | str (s : String)
  | int (n : Int)
  deriving DecidableEq, Repr

def EncValue.render : EncValue → String
  | .str s => encodeString s
  | .int n => formatInt n

/-- The members the struct encoder emits for a `SubRequest`, in field order.
`FreqMs` carries `omitempty`: it is skipped when it is the zero value. -/
def SubRequest.members (r : SubRequest) : List (String × EncValue) :=
  [("sub", .str r.Sub), ("id", .str r.ID)] ++
    (if r.FreqMs = 0 then [] else [("freq-ms", .int r.FreqMs)])

def renderMember (m : String × EncValue) : String :=
  encodeString m.1 ++ ":" ++ m.2.render

/-- The object text for a list of members. -/
def renderObject (ms : List (String × EncValue)) : String :=
  "\x7b" ++ ",".intercalate (ms.map renderMember) ++ "\x7d"

/-- `json.Marshal(subRequest)`: the encoded bytes, or the error. No field of
`SubRequest` has a type the encoder can refuse, so the result is always the
encoding. -/
def jsonMarshal (r : SubRequest) : Except String Bytes :=
  .ok (bytesOf (renderObject r.members))

/-! ## Inbound frames: gzip and `json.Unmarshal` into a `*SubResponse` -/

/-- A JSON document after the syntax scan. A number keeps its literal text,
which is what the decoder hands to `strconv`. -/
inductive JSON where
  | null
  | bool (b : Bool)
  | num (lit : String)
  | str (s : String)
  | arr (items : List JSON)
  | obj (members : List (String × JSON))

/-- The library calls `main.go` makes on inbound data and whose code is not in
the repository. -/
structure Lib where
  /-- The call `gzip.NewReader(bytes.NewReader(in))`: the error for a bad gzip header,
  else the reader, identified with the input it will inflate. -/
  gzipNewReader : Bytes → Except String Bytes
  /-- The call `ioutil.ReadAll(reader)`: the inflated bytes, or the error. -/
  ioutilReadAll : Bytes → Except String Bytes
  /-- The syntax scan `json.Unmarshal` runs over the whole input before it
  stores anything: the document, or the syntax error. -/
  jsonScan : Bytes → Except String JSON
  /-- The call `strconv.ParseFloat(lit, 64)` on a number literal; `none` when out of
  range. -/
  parseFloat : String → Option Float64

/-- The function `gzipCompress` of `main.go` (it inflates): `(msg, err)` with
`msg = nil` whenever `err` is set. -/
def gzipCompress (L : Lib) (input : Bytes) : Bytes × Option String :=
  match L.gzipNewReader input with
  | .error err => ([], some err)
  | .ok reader =>
    match L.ioutilReadAll reader with
    | .error err => ([], some err)
    | .ok msg => (msg, none)

/-- An error of `json.Unmarshal`. -/
inductive UnmarshalError where
  | syntaxError (msg : String)
  | typeError (value : String) (field : String)
  deriving DecidableEq, Repr

/-- Case folding of one code point, as far as it can reach an ASCII letter:
`A`..`Z`, the Kelvin sign (for `k`) and the long s (for `s`). -/
def foldRune (c : Char) : Char :=
  if 65 ≤ c.toNat ∧ c.toNat ≤ 90 then Char.ofNat (c.toNat + 32)
  else if c.toNat = 0x212A then 'k'
  else if c.toNat = 0x17F then 's'
  else c

def foldName (s : String) : String := String.mk (s.toList.map foldRune)

/-- The struct field a JSON key selects: the field whose tag name equals the
key, else the one equal to it under case folding. -/
def findField (names : List String) (key : String) : Option String :=
  match names.find? (fun n => n = key) with
  | some n => some n
  | none => names.find? (fun n => foldName n = foldName key)

def digitValue (c : Char) : Option Nat :=
  if 48 ≤ c.toNat ∧ c.toNat ≤ 57 then some (c.toNat - 48) else none

/-- Value of a non-empty run of decimal digits. -/
def digitsValue : List Char → Nat → Option Nat
  | [], acc => some acc
  | c :: cs, acc =>
    match digitValue c with
    | some d => digitsValue cs (acc * 10 + d)
    | none => none

/-- The call `strconv.ParseInt(lit, 10, 64)`: an optional sign, then digits, and the
value must fit an `int64`. -/
def parseInt64 (lit : String) : Option Int :=
  match lit.toList with
  | [] => none
  | c :: cs =>
    if c = '-' then
      match cs, digitsValue cs 0 with
      | _ :: _, some n => if n ≤ 2 ^ 63 then some (-(n : Int)) else none
      | _, _ => none
    else if c = '+' then
      match cs, digitsValue cs 0 with
      | _ :: _, some n => if n < 2 ^ 63 then some (n : Int) else none
      | _, _ => none
    else
      match digitsValue (c :: cs) 0 with
      | some n => if n < 2 ^ 63 then some (n : Int) else none
      | none => none

/-- What an `UnmarshalTypeError` calls a JSON value that has the wrong kind
for the field. -/
def JSON.describe : JSON → String
  | .null => "null"
  | .bool _ => "bool"
  | .num _ => "number"
  | .str _ => "string"
  | .arr _ => "array"
  | .obj _ => "object"

/-- Store a JSON value into an `int` field: `null` leaves it alone, a number
that parses as an `int64` is stored, anything else is a type error and leaves
it alone. -/
def storeInt (field : String) (old : Int) (v : JSON) : Int × Option UnmarshalError :=
  match v with
  | .null => (old, none)
  | .num lit =>
    match parseInt64 lit with
    | some n => (n, none)
    | none => (old, some (.typeError ("number " ++ lit) field))
  | _ => (old, some (.typeError (v.describe) field))

/-- Store a JSON value into a `float64` field. -/
def storeFloat (L : Lib) (field : String) (old : Float64) (v : JSON) :
    Float64 × Option UnmarshalError :=
  match v with
  | .null => (old, none)
  | .num lit =>
    match L.parseFloat lit with
    | some x => (x, none)
    | none => (old, some (.typeError ("number " ++ lit) field))
  | _ => (old, some (.typeError (v.describe) field))

/-- Store a JSON value into a `string` field. -/
def storeString (field : String) (old : String) (v : JSON) : String × Option UnmarshalError :=
  match v with
  | .null => (old, none)
  | .str s => (s, none)
  | _ => (old, some (.typeError (v.describe) field))

/-- The decoder keeps the first error it meets and goes on. -/
def firstError (saved new : Option UnmarshalError) : Option UnmarshalError :=
  match saved with
  | some e => some e
  | none => new

/-- Tag names of `Tick`, in field order. -/
def Tick.names : List String :=
  ["id", "open", "close", "low", "high", "amount", "vol", "count"]

/-- Tag names of `SubResponse`, in field order. -/
def SubResponse.names : List String := ["ch", "ts", "tick"]

/-- One member of a JSON object stored into a `Tick`. A key that selects no
field is skipped. -/
def Tick.store (L : Lib) (t : Tick) (key : String) (v : JSON) : Tick × Option UnmarshalError :=
  match findField Tick.names key with
  | none => (t, none)
  | some name =>
    if name = "id" then
      let r := storeInt "Tick.id" t.ID v; ({ t with ID := r.1 }, r.2)
    else if name = "open" then
      let r := storeFloat L "Tick.open" t.Open v; ({ t with Open := r.1 }, r.2)
    else if name = "close" then
      let r := storeFloat L "Tick.close" t.Close v; ({ t with Close := r.1 }, r.2)
    else if name = "low" then
      let r := storeFloat L "Tick.low" t.Low v; ({ t with Low := r.1 }, r.2)
    else if name = "high" then
      let r := storeFloat L "Tick.high" t.High v; ({ t with High := r.1 }, r.2)
    else if name = "amount" then
      let r := storeFloat L "Tick.amount" t.Amount v; ({ t with Amount := r.1 }, r.2)
    else if name = "vol" then
      let r := storeFloat L "Tick.vol" t.Volume v; ({ t with Volume := r.1 }, r.2)
    else
      let r := storeInt "Tick.count" t.Count v; ({ t with Count := r.1 }, r.2)

/-- The members of a JSON object stored into a `Tick`, in document order. -/
def Tick.decode (L : Lib) : List (String × JSON) → Tick → Option UnmarshalError →
    Tick × Option UnmarshalError
  | [], t, e => (t, e)
  | (k, v) :: rest, t, e =>
    let r := Tick.store L t k v
    Tick.decode L rest r.1 (firstError e r.2)

/-- Store a JSON value into the `Tick` field of the envelope. -/
def storeTick (L : Lib) (old : Tick) (v : JSON) : Tick × Option UnmarshalError :=
  match v with
  | .null => (old, none)
  | .obj members => Tick.decode L members old none
  | _ => (old, some (.typeError (v.describe) "SubResponse.tick"))

/-- One member of the top-level object stored into a `SubResponse`. -/
def SubResponse.store (L : Lib) (r : SubResponse) (key : String) (v : JSON) :
    SubResponse × Option UnmarshalError :=
  match findField SubResponse.names key with
  | none => (r, none)
  | some name =>
    if name = "ch" then
      let x := storeString "SubResponse.ch" r.Ch v; ({ r with Ch := x.1 }, x.2)
    else if name = "ts" then
      let x := storeInt "SubResponse.ts" r.Ts v; ({ r with Ts := x.1 }, x.2)
    else
      let x := storeTick L r.Tick v; ({ r with Tick := x.1 }, x.2)

/-- The members of the top-level object stored into a `SubResponse`, in
document order. -/
def SubResponse.decode (L : Lib) : List (String × JSON) → SubResponse →
    Option UnmarshalError → SubResponse × Option UnmarshalError
  | [], r, e => (r, e)
  | (k, v) :: rest, r, e =>
    let x := SubResponse.store L r k v
    SubResponse.decode L rest x.1 (firstError e x.2)

/-- A scanned document stored into a `SubResponse`: an object is stored member
by member, `null` changes nothing, any other value is a type error. -/
def storeDocument (L : Lib) (doc : JSON) (r : SubResponse) :
    SubResponse × Option UnmarshalError :=
  match doc with
  | .obj members => SubResponse.decode L members r none
  | .null => (r, none)
  | _ => (r, some (.typeError (doc.describe) "SubResponse"))

/-- The call `json.Unmarshal(data, &subRes)`: the value `subRes` holds afterwards and the
error. A syntax error leaves `subRes` untouched; a type error does not undo
the members stored before or after it. -/
def jsonUnmarshal (L : Lib) (data : Bytes) (subRes : SubResponse) :
    SubResponse × Option UnmarshalError :=
  match L.jsonScan data with
  | .error msg => (subRes, some (.syntaxError msg))
  | .ok doc => storeDocument L doc subRes

/-! ## Reading the encoding back

A reader for what `json.Marshal` writes for a `SubRequest`: UTF-8, then a
JSON object whose values are strings and integers, with no white space. -/

/-- A UTF-8 continuation byte. -/
def isCont (b : Nat) : Bool := 0x80 ≤ b && b < 0xC0

/-- The first code point of a byte sequence read as UTF-8, and the bytes after
it; `none` when the sequence does not start with a valid encoding (stray or
missing continuation bytes, overlong forms, surrogates, values past
U+10FFFF). -/
def utf8First : Bytes → Option (Char × Bytes)
  | [] => none
  | b0 :: rest =>
    if b0 < 0x80 then some (Char.ofNat b0, rest)
    else if b0 < 0xE0 then
      match rest with
      | b1 :: rest1 =>
        let n := (b0 - 0xC0) * 64 + (b1 - 0x80)
        if 0xC0 ≤ b0 ∧ isCont b1 = true ∧ 0x80 ≤ n then some (Char.ofNat n, rest1) else none
      | _ => none
    else if b0 < 0xF0 then
      match rest with
      | b1 :: b2 :: rest2 =>
        let n := (b0 - 0xE0) * 4096 + (b1 - 0x80) * 64 + (b2 - 0x80)
        if isCont b1 = true ∧ isCont b2 = true ∧ 0x800 ≤ n ∧ (n < 0xD800 ∨ 0xDFFF < n) then
          some (Char.ofNat n, rest2)
        else none
      | _ => none
    else if b0 < 0xF8 then
      match rest with
      | b1 :: b2 :: b3 :: rest3 =>
        let n := (b0 - 0xF0) * 262144 + (b1 - 0x80) * 4096 + (b2 - 0x80) * 64 + (b3 - 0x80)
        if isCont b1 = true ∧ isCont b2 = true ∧ isCont b3 = true ∧ 0x10000 ≤ n ∧
            n < 0x110000 then
          some (Char.ofNat n, rest3)
        else none
      | _ => none
    else none

/-- The loop of `utf8Decode`; every code point takes at least one byte, so
the length of the input is fuel enough. -/
def utf8DecodeLoop : Nat → Bytes → Option (List Char)
  | 0, bs => if bs = [] then some [] else none
  | fuel + 1, bs =>
    if bs = [] then some []
    else
      match utf8First bs with
      | some (c, rest) => (utf8DecodeLoop fuel rest).map (fun cs => c :: cs)
      | none => none

/-- The code points a byte sequence holds as UTF-8; `none` when it is not
valid UTF-8. -/
def utf8Decode (bs : Bytes) : Option (List Char) := utf8DecodeLoop bs.length bs

/-- Value of a hexadecimal digit. -/
def hexValue (c : Char) : Option Nat :=
  if 48 ≤ c.toNat ∧ c.toNat ≤ 57 then some (c.toNat - 48)
  else if 97 ≤ c.toNat ∧ c.toNat ≤ 102 then some (c.toNat - 87)
  else if 65 ≤ c.toNat ∧ c.toNat ≤ 70 then some (c.toNat - 55)
  else none

/-- The character a two-character escape stands for. -/
def unescape (e : Char) : Option Char :=
  if e = Char.ofNat 34 then some (Char.ofNat 34)
  else if e = Char.ofNat 92 then some (Char.ofNat 92)
  else if e = '/' then some '/'
  else if e = 'b' then some (Char.ofNat 8)
  else if e = 'f' then some (Char.ofNat 12)
  else if e = 'n' then some (Char.ofNat 10)
  else if e = 'r' then some (Char.ofNat 13)
  else if e = 't' then some (Char.ofNat 9)
  else none

/-- One element of a JSON string, read from the text after the opening quote:
`some (none, rest)` at the closing quote, `some (some c, rest)` for a code
point (written plainly or as an escape), `none` when the text is not a JSON
string here: a raw control character, an unknown escape, bad hexadecimal
digits. A `\u` escape of a surrogate half is refused. -/
def readRune : List Char → Option (Option Char × List Char)
  | [] => none
  | c :: cs =>
    if c = Char.ofNat 34 then some (none, cs)
    else if c = Char.ofNat 92 then
      match cs with
      | [] => none
      | e :: rest =>
        if e = 'u' then
          match rest with
          | h1 :: h2 :: h3 :: h4 :: rest4 =>
            match hexValue h1, hexValue h2, hexValue h3, hexValue h4 with
            | some a, some b, some c, some d =>
              let n := a * 4096 + b * 256 + c * 16 + d
              if 0xD800 ≤ n ∧ n ≤ 0xDFFF then none else some (some (Char.ofNat n), rest4)
            | _, _, _, _ => none
          | _ => none
        else
          match unescape e with
          | some x => some (some x, rest)
          | none => none
    else if c.toNat < 0x20 then none
    else some (some c, cs)

/-- The loop of `readString`; every element takes at least one character. -/
def readStringLoop : Nat → List Char → Option (List Char × List Char)
  | 0, _ => none
  | fuel + 1, cs =>
    match readRune cs with
    | none => none
    | some (none, rest) => some ([], rest)
    | some (some c, rest) => (readStringLoop fuel rest).map (fun r => (c :: r.1, r.2))

/-- A JSON string read from the text after its opening quote: its content and
the text after the closing quote. -/
def readString (cs : List Char) : Option (List Char × List Char) :=
  readStringLoop cs.length cs

/-- A decimal digit. -/
def isDigit (c : Char) : Bool := (digitValue c).isSome

/-- A JSON integer read from the text: an optional minus sign and a run of
digits with no leading zero. The literal and the text after it; `none` when
there is no such number here. Fractions and exponents are not read. -/
def readNumber (cs : List Char) : Option (JSON × List Char) :=
  let neg : Bool := cs.head? = some '-'
  let body := if neg then cs.tail else cs
  let ds := body.takeWhile isDigit
  let rest := body.dropWhile isDigit
  if ds = [] then none
  else if ds.head? = some '0' ∧ 1 < ds.length then none
  else some (.num (String.mk ((if neg then ['-'] else []) ++ ds)), rest)

/-- A JSON value read from the text: a string or an integer. -/
def readValue : List Char → Option (JSON × List Char)
  | [] => none
  | c :: cs =>
    if c = Char.ofNat 34 then
      match readString cs with
      | some (s, rest) => some (.str (String.mk s), rest)
      | none => none
    else readNumber (c :: cs)

/-- One member of an object read from the text: a string, a colon, a
value. -/
def readMember : List Char → Option ((String × JSON) × List Char)
  | [] => none
  | c :: cs =>
    if c = Char.ofNat 34 then
      match readString cs with
      | some (k, c2 :: cs2) =>
        if c2 = ':' then
          match readValue cs2 with
          | some (v, rest) => some ((String.mk k, v), rest)
          | none => none
        else none
      | _ => none
    else none

/-- The members of an object read from the text after the opening brace, up
to and including the closing brace: the members and the text after the
brace. -/
def readMembers : Nat → List Char → Option (List (String × JSON) × List Char)
  | 0, _ => none
  | fuel + 1, cs =>
    match readMember cs with
    | some (m, c :: rest) =>
      if c = ',' then (readMembers fuel rest).map (fun r => (m :: r.1, r.2))
      else if c = Char.ofNat 125 then some ([m], rest)
      else none
    | _ => none

/-- A whole text read as a JSON object whose values are strings and integers,
written without white space: its members in order. -/
def readObject : List Char → Option (List (String × JSON))
  | [] => none
  | c :: cs =>
    if c = Char.ofNat 123 then
      if cs = [Char.ofNat 125] then some []
      else
        match readMembers cs.length cs with
        | some (ms, []) => some ms
        | _ => none
    else none

/-- The bytes read as a JSON object: UTF-8, then `readObject`. -/
def decodeDocument (b : Bytes) : Option (List (String × JSON)) :=
  (utf8Decode b).bind readObject

/-- The JSON value a field value is written as. -/
def EncValue.toJSON : EncValue → JSON
  | .str s => .str s
  | .int n => .num (formatInt n)

/-- What a member is read back as. -/
def readBack (m : String × EncValue) : String × JSON := (m.1, m.2.toJSON)

/-! ## The session: `main` and the reader goroutine -/

/-- The constant `websocket.TextMessage`. -/
def TextMessage : Nat := 1

/-- The constant `websocket.CloseMessage`. -/
def CloseMessage : Nat := 8

/-- The constant `websocket.CloseNormalClosure`. -/
def CloseNormalClosure : Nat := 1000

/-- The constant `websocket.CloseNoStatusReceived`. -/
def CloseNoStatusReceived : Nat := 1005

/-- The function `websocket.FormatCloseMessage`: the status code as two big-endian
bytes, then the reason text. -/
def FormatCloseMessage (closeCode : Nat) (text : String) : Bytes :=
  if closeCode = CloseNoStatusReceived then []
  else [closeCode / 256 % 256, closeCode % 256] ++ bytesOf text

/-- Decimal text of a year as `time.Time.String` writes it (layout `2006`):
at least four digits, padded with zeros, after a minus sign for a negative
year. -/
def formatYear (y : Int) : String :=
  let ds := Nat.toDigits 10 y.natAbs
  String.mk ((if y < 0 then ['-'] else []) ++ (List.replicate (4 - ds.length) '0' ++ ds))

/-- A `time.Time` delivered by the ticker: its year, and the text
`t.String()` writes after the year (month, day, clock, zone, monotonic
reading), which nothing here looks into. -/
structure Time where
  year : Int
  tail : String
  deriving DecidableEq, Repr

/-- The text `t.String()` returns: the year, then the rest. -/
def Time.text (t : Time) : String := formatYear t.year ++ t.tail

/-- What `c.ReadMessage()` returned: an error, the message payload, or the
error `e` it returns when the peer's close frame with status `code` arrives.
For a close frame the default close handler of the websocket library first
sends a close frame back from inside `ReadMessage` (same code, empty reason)
and ignores the outcome; `replied` says whether that frame went out. -/
inductive ReadResult where
  | err (e : String)
  | msg (message : Bytes)
  | closed (code : Nat) (e : String) (replied : Bool)
  deriving DecidableEq, Repr

/-- One line on the log. `err label e` is an error printed after the given
label (`""` when the call prints the error alone). -/
inductive LogLine where
  | connecting (url : String)
  | err (label : String) (e : String)
  | interrupt
  | recv (subRes : SubResponse)
  deriving DecidableEq, Repr

/-- The three `WriteMessage` calls of `main`. -/
inductive WriteSite where
  | subscribe
  | heartbeat
  | close
  deriving DecidableEq, Repr

/-- What a run does that can be seen from outside, in order. `write` is a
`WriteMessage` call of `main` with its result; `closeReply` is the close
frame the library's close handler puts on the connection from inside
`ReadMessage`. -/
inductive Event where
  | write (site : WriteSite) (messageType : Nat) (data : Bytes) (err : Option String)
  | closeReply (data : Bytes)
  | read (res : ReadResult)
  | log (line : LogLine)
  | goReader
  | newTicker
  | closeDone
  | tickerStop
  | connClose
  | osExit (code : Nat)
  deriving DecidableEq, Repr

/-- The `return` of `main` that ended the session. -/
inductive ExitCause where
  | readerDone
  | heartbeatFailed
  | closeFailed
  | graceDone
  | graceTimeout
  deriving DecidableEq, Repr

/-- Where `main` stands. -/
inductive MainPC where
  | connecting
  | fatal
  | subscribing
  | spawning
  | startingTicker
  | selecting
  | heartbeat (t : Time)
  | closing
  | grace
  | returned (cause : ExitCause)
  deriving DecidableEq, Repr

/-- Where the reader goroutine stands; `exited` is also "`done` is closed". -/
inductive ReaderPC where
  | notStarted
  | running
  | exited
  deriving DecidableEq, Repr

structure State where
  main : MainPC
  reader : ReaderPC
  subRes : SubResponse
  deriving DecidableEq, Repr

/-- The state `main` starts in. -/
def init : State := ⟨.connecting, .notStarted, SubResponse.zero⟩

/-- What the outside decides at a step: the result of the I/O call the step
makes, or which ready case a `select` takes. -/
inductive Choice where
  | dial (err : Option String)
  | subscribe (err : Option String)
  | spawn
  | startTicker
  | selDone
  | selTick (t : Time)
  | selInterrupt
  | heartbeat (err : Option String)
  | closeWrite (err : Option String)
  | graceDone
  | graceTimeout
  | read (res : ReadResult)
  deriving DecidableEq, Repr

/-- The deferred calls `main` runs when it returns. -/
def deferred : List Event := [.tickerStop, .connClose]

/-- The request `main` builds on line 74. -/
def subRequest : SubRequest := ⟨btcKlineTopic, "id1", 5000⟩

/-- Lines 74-82 of `main`: marshal the request, log a marshal error, write the
text frame, log a write error. Neither error path returns. -/
def subscribeEvents (writeErr : Option String) : List Event :=
  let r := jsonMarshal subRequest
  let msg : Bytes := match r with
    | .ok b => b
    | .error _ => []
  let e1 : List Event := match r with
    | .ok _ => []
    | .error e => [.log (.err "" e)]
  let e2 : List Event := match writeErr with
    | none => []
    | some e => [.log (.err "write" e)]
  e1 ++ [.write .subscribe TextMessage msg writeErr] ++ e2

/-- Lines 96-103: the body of the reader loop once `ReadMessage` has returned
a message. A gzip error is logged and the loop body goes on to
`json.Unmarshal` with `msg = nil`; the value is logged only when
`json.Unmarshal` returns no error. -/
def readerBody (L : Lib) (subRes : SubResponse) (message : Bytes) :
    SubResponse × List Event :=
  let z := gzipCompress L message
  let e1 : List Event := match z.2 with
    | some e => [.log (.err "" e)]
    | none => []
  let u := jsonUnmarshal L z.1 subRes
  let e2 : List Event := match u.2 with
    | none => [.log (.recv u.1)]
    | some _ => []
  (u.1, e1 ++ e2)

/-- One step of the program under the given choice; `none` when the program
cannot take that step in that state. The reader steps only while `main` has
not returned (the process ends when `main` does). The result of every
`WriteMessage` call comes from outside, so the runs of `step` include every
run of the program. The library's reply to the peer's close frame cannot go
out once `main` has sent its own close frame (the connection refuses writes
after a close frame was sent), so that read has `replied = false` then. -/
def step (L : Lib) (s : State) (c : Choice) : Option (State × List Event) :=
  match c, s.main, s.reader with
  | .dial none, .connecting, _ =>
    some ({ s with main := .subscribing }, [.log (.connecting "wss://api.huobi.pro/ws")])
  | .dial (some e), .connecting, _ =>
    some ({ s with main := .fatal },
      [.log (.connecting "wss://api.huobi.pro/ws"), .log (.err "dial:" e), .osExit 1])
  | .subscribe err, .subscribing, _ =>
    some ({ s with main := .spawning }, subscribeEvents err)
  | .spawn, .spawning, _ =>
    some ({ main := .startingTicker, reader := .running, subRes := SubResponse.zero },
      [.goReader])
  | .startTicker, .startingTicker, _ =>
    some ({ s with main := .selecting }, [.newTicker])
  | .selDone, .selecting, .exited =>
    some ({ s with main := .returned .readerDone }, deferred)
  | .selTick t, .selecting, _ =>
    some ({ s with main := .heartbeat t }, [])
  | .heartbeat none, .heartbeat t, _ =>
    some ({ s with main := .selecting },
      [.write .heartbeat TextMessage (bytesOf t.text) none])
  | .heartbeat (some e), .heartbeat t, _ =>
    some ({ s with main := .returned .heartbeatFailed },
      [.write .heartbeat TextMessage (bytesOf t.text) (some e), .log (.err "write:" e)]
        ++ deferred)
  | .selInterrupt, .selecting, _ =>
    some ({ s with main := .closing }, [.log .interrupt])
  | .closeWrite none, .closing, _ =>
    some ({ s with main := .grace },
      [.write .close CloseMessage (FormatCloseMessage CloseNormalClosure "") none])
  | .closeWrite (some e), .closing, _ =>
    some ({ s with main := .returned .closeFailed },
      [.write .close CloseMessage (FormatCloseMessage CloseNormalClosure "") (some e),
        .log (.err "write close:" e)] ++ deferred)
  | .graceDone, .grace, .exited =>
    some ({ s with main := .returned .graceDone }, deferred)
  | .graceTimeout, .grace, _ =>
    some ({ s with main := .returned .graceTimeout }, deferred)
  | .read _, .returned _, _ => none
  | .read (.closed _ _ true), .grace, _ => none
  | .read (.closed code e replied), _, .running =>
    some ({ s with reader := .exited },
      (if replied then [.closeReply (FormatCloseMessage code "")] else [])
        ++ [.read (.closed code e replied), .log (.err "read:" e), .closeDone])
  | .read (.err e), _, .running =>
    some ({ s with reader := .exited },
      [.read (.err e), .log (.err "read:" e), .closeDone])
  | .read (.msg m), _, .running =>
    let r := readerBody L s.subRes m
    some ({ s with subRes := r.1 }, .read (.msg m) :: r.2)
  | _, _, _ => none

/-- A run: the choices taken one after another from a state, with the final
state and everything the run did; `none` when some choice was not possible. -/
def run (L : Lib) : State → List Choice → Option (State × List Event)
  | s, [] => some (s, [])
  | s, c :: cs =>
    match step L s c with
    | none => none
    | some (s1, ev) =>
      match run L s1 cs with
      | none => none
      | some (s2, tr) => some (s2, ev ++ tr)

/-- The reader goroutine on its own (lines 88-105), fed the results of its
successive `ReadMessage` calls: everything it does, starting with the given
content of `subRes`. It stops at the first read error. -/
def readerLoop (L : Lib) : SubResponse → List ReadResult → List Event
  | _, [] => []
  | _, .err e :: _ => [.read (.err e), .log (.err "read:" e), .closeDone]
  | _, .closed code e replied :: _ =>
    (if replied then [.closeReply (FormatCloseMessage code "")] else [])
      ++ [.read (.closed code e replied), .log (.err "read:" e), .closeDone]
  | b, .msg m :: rest =>
    let r := readerBody L b m
    (.read (.msg m) :: r.2) ++ readerLoop L r.1 rest

/-- The reader the design note proposes instead: the same loop, but every
frame is decoded into a fresh zero-valued `SubResponse`. -/
def readerLoopFresh (L : Lib) : List ReadResult → List Event
  | [] => []
  | .err e :: _ => [.read (.err e), .log (.err "read:" e), .closeDone]
  | .closed code e replied :: _ =>
    (if replied then [.closeReply (FormatCloseMessage code "")] else [])
      ++ [.read (.closed code e replied), .log (.err "read:" e), .closeDone]
  | .msg m :: rest =>
    let r := readerBody L SubResponse.zero m
    (.read (.msg m) :: r.2) ++ readerLoopFresh L rest

/-- The `recv:` records among some events, in order. -/
def recvRecords : List Event → List SubResponse
  | [] => []
  | .log (.recv v) :: rest => v :: recvRecords rest
  | _ :: rest => recvRecords rest

/-! ## Sample frames

Real gzip streams (deflate, no file name, zero mtime) of small documents, and
a `Lib` that gives for them what the Go libraries give. -/

/-- The text `{"tick":{"id":5}}`. -/
def textTick5 : Bytes := bytesOf "\x7b\"tick\":\x7b\"id\":5\x7d\x7d"

/-- The gzip stream of `textTick5`. -/
def frameTick5 : Bytes :=
  [31, 139, 8, 0, 0, 0, 0, 0, 2, 255, 171, 86, 42, 201, 76, 206, 86, 178, 170, 86, 202, 76,
   81, 178, 50, 173, 173, 5, 0, 164, 213, 193, 155, 17, 0, 0, 0]

/-- The text `{"ch":"x"}`. -/
def textChX : Bytes := bytesOf "\x7b\"ch\":\"x\"\x7d"

/-- The gzip stream of `textChX`. -/
def frameChX : Bytes :=
  [31, 139, 8, 0, 0, 0, 0, 0, 2, 255, 171, 86, 74, 206, 80, 178, 82, 170, 80, 170, 5, 0, 0,
   8, 51, 223, 10, 0, 0, 0]

/-- The text `{"ts":"a","ch":"y"}`: well-formed JSON whose `ts` has the wrong type. -/
def textTsString : Bytes := bytesOf "\x7b\"ts\":\"a\",\"ch\":\"y\"\x7d"

/-- The gzip stream of `textTsString`. -/
def frameTsString : Bytes :=
  [31, 139, 8, 0, 0, 0, 0, 0, 2, 255, 171, 86, 42, 41, 86, 178, 82, 74, 84, 210, 81, 74, 206,
   0, 50, 42, 149, 106, 1, 14, 160, 133, 48, 19, 0, 0, 0]

/-- The text `not json`. -/
def textNotJSON : Bytes := bytesOf "not json"

/-- The gzip stream of `textNotJSON`. -/
def frameNotJSON : Bytes :=
  [31, 139, 8, 0, 0, 0, 0, 0, 2, 255, 203, 203, 47, 81, 200, 42, 206, 207, 3, 0, 102, 203,
   140, 198, 8, 0, 0, 0]

/-- The bytes of `not a gzip frame`: long enough for a gzip header, but not
one. -/
def frameNotGzip : Bytes := bytesOf "not a gzip frame"

/-- The envelope of the single-tick scenario:
`{"ch":"market.btcusdt.kline.1min","ts":1700000000,"tick":{"id":1700000000,"open":30000.0,"close":30100.5,"low":29950.0,"high":30200.0,"amount":12.5,"vol":375000.0,"count":42}}`. -/
def textFull : Bytes :=
  bytesOf ("\x7b\"ch\":\"market.btcusdt.kline.1min\",\"ts\":1700000000,\"tick\":\x7b\"id\":1700000000," ++
    "\"open\":30000.0,\"close\":30100.5,\"low\":29950.0,\"high\":30200.0,\"amount\":12.5," ++
    "\"vol\":375000.0,\"count\":42\x7d\x7d")

/-- The gzip stream of `textFull`. -/
def frameFull : Bytes :=
  [31, 139, 8, 0, 0, 0, 0, 0, 2, 255, 85, 140, 203, 14, 194, 32, 20, 68, 255, 101, 214, 13,
   17, 148, 52, 189, 127, 83, 41, 17, 194, 227, 26, 161, 186, 104, 250, 239, 130, 213, 133,
   179, 59, 115, 38, 179, 193, 56, 16, 210, 252, 8, 182, 138, 107, 53, 107, 89, 170, 8, 209,
   103, 43, 100, 242, 25, 3, 106, 1, 201, 241, 244, 77, 99, 111, 2, 104, 131, 95, 254, 123,
   190, 219, 12, 58, 119, 16, 13, 77, 228, 98, 59, 203, 198, 122, 64, 228, 23, 72, 77, 147,
   254, 88, 231, 111, 174, 75, 117, 140, 231, 196, 107, 174, 237, 79, 245, 233, 147, 99, 115,
   163, 254, 61, 29, 238, 162, 246, 253, 13, 200, 254, 81, 88, 175, 0, 0, 0]

/-- The document `textFull` scans to. -/
def docFull : JSON :=
  .obj [("ch", .str "market.btcusdt.kline.1min"), ("ts", .num "1700000000"),
    ("tick", .obj [("id", .num "1700000000"), ("open", .num "30000.0"),
      ("close", .num "30100.5"), ("low", .num "29950.0"), ("high", .num "30200.0"),
      ("amount", .num "12.5"), ("vol", .num "375000.0"), ("count", .num "42")])]

/-- A `Lib` that agrees with the Go libraries on the sample frames: the gzip
header check wants the ten header bytes to be there (`EOF` on no input,
`unexpected EOF` on fewer) and looks at the two magic bytes and the method
byte, inflation and the JSON scan know the samples and fail on anything else
(the empty input included), and `ParseFloat` knows the six prices of
`textFull`. -/
def sampleLib : Lib where
  gzipNewReader := fun b =>
    if b = [] then .error "EOF"
    else if b.length < 10 then .error "unexpected EOF"
    else
      match b with
      | 31 :: 139 :: 8 :: _ => .ok b
      | _ => .error "gzip: invalid header"
  ioutilReadAll := fun b =>
    if b = frameTick5 then .ok textTick5
    else if b = frameChX then .ok textChX
    else if b = frameTsString then .ok textTsString
    else if b = frameNotJSON then .ok textNotJSON
    else if b = frameFull then .ok textFull
    else .error "unexpected EOF"
  jsonScan := fun b =>
    if b = [] then .error "unexpected end of JSON input"
    else if b = textTick5 then .ok (.obj [("tick", .obj [("id", .num "5")])])
    else if b = textChX then .ok (.obj [("ch", .str "x")])
    else if b = textTsString then .ok (.obj [("ts", .str "a"), ("ch", .str "y")])
    else if b = textFull then .ok docFull
    else if b = textNotJSON then
      .error "invalid character 'o' in literal null (expecting 'u')"
    else .error "invalid character"
  parseFloat := fun lit =>
    if lit = "30000.0" then some 0x40dd4c0000000000
    else if lit = "30100.5" then some 0x40dd652000000000
    else if lit = "29950.0" then some 0x40dd3f8000000000
    else if lit = "30200.0" then some 0x40dd7e0000000000
    else if lit = "12.5" then some 0x4029000000000000
    else if lit = "375000.0" then some 0x4116e36000000000
    else none

/-! ## Predicates used in the statements -/

/-- The control skeleton of a run: the writes (with whether they failed), the
start of the reader and of the ticker, and the interrupt being taken. -/
inductive Mark where
  | subscribe
  | go
  | ticker
  | heartbeat (failed : Bool)
  | interrupt
  | close (failed : Bool)
  deriving DecidableEq, Repr

def Event.mark : Event → Option Mark
  | .write .subscribe _ _ _ => some .subscribe
  | .write .heartbeat _ _ err => some (.heartbeat err.isSome)
  | .write .close _ _ err => some (.close err.isSome)
  | .goReader => some .go
  | .newTicker => some .ticker
  | .log .interrupt => some .interrupt
  | _ => none

def marks (tr : List Event) : List Mark := tr.filterMap Event.mark

/-- The event is a `WriteMessage` call. -/
def Event.isWrite : Event → Bool
  | .write _ _ _ _ => true
  | _ => false

/-- The event is a `WriteMessage` call with message type `CloseMessage`. -/
def Event.isCloseFrame : Event → Bool
  | .write _ messageType _ _ => messageType == CloseMessage
  | _ => false

/-- What each write site sends: the subscribe site the marshalled request as
text, the heartbeat site a ticker time as text, the close site the
normal-closure close message; and the library's reply to a close frame is a
close message with a status code and no reason. -/
def Event.wellFormed : Event → Prop
  | .write .subscribe messageType data _ =>
    messageType = TextMessage ∧ jsonMarshal subRequest = .ok data
  | .write .heartbeat messageType data _ =>
    messageType = TextMessage ∧ ∃ t : Time, data = bytesOf t.text
  | .write .close messageType data _ =>
    messageType = CloseMessage ∧ data = FormatCloseMessage CloseNormalClosure ""
  | .closeReply data => ∃ code, data = FormatCloseMessage code ""
  | _ => True

/-- The event is the close frame the library's close handler sends. -/
def Event.isCloseReply : Event → Bool
  | .closeReply _ => true
  | _ => false

/-- The skeleton a run has when `main` stands at the given place. -/
def Shape : MainPC → List Mark → Prop
  | .connecting, ms => ms = []
  | .fatal, ms => ms = []
  | .subscribing, ms => ms = []
  | .spawning, ms => ms = [.subscribe]
  | .startingTicker, ms => ms = [.subscribe, .go]
  | .selecting, ms => ∃ n, ms = [.subscribe, .go, .ticker] ++ List.replicate n (.heartbeat false)
  | .heartbeat _, ms => ∃ n, ms = [.subscribe, .go, .ticker] ++ List.replicate n (.heartbeat false)
  | .returned .readerDone, ms =>
    ∃ n, ms = [.subscribe, .go, .ticker] ++ List.replicate n (.heartbeat false)
  | .returned .heartbeatFailed, ms =>
    ∃ n, ms = [.subscribe, .go, .ticker] ++ List.replicate n (.heartbeat false)
      ++ [.heartbeat true]
  | .closing, ms =>
    ∃ n, ms = [.subscribe, .go, .ticker] ++ List.replicate n (.heartbeat false)
      ++ [.interrupt]
  | .grace, ms =>
    ∃ n, ms = [.subscribe, .go, .ticker] ++ List.replicate n (.heartbeat false)
      ++ [.interrupt, .close false]
  | .returned .closeFailed, ms =>
    ∃ n, ms = [.subscribe, .go, .ticker] ++ List.replicate n (.heartbeat false)
      ++ [.interrupt, .close true]
  | .returned .graceDone, ms =>
    ∃ n, ms = [.subscribe, .go, .ticker] ++ List.replicate n (.heartbeat false)
      ++ [.interrupt, .close false]
  | .returned .graceTimeout, ms =>
    ∃ n, ms = [.subscribe, .go, .ticker] ++ List.replicate n (.heartbeat false)
      ++ [.interrupt, .close false]

/-- The frame inflates and its payload decodes as an envelope without error. -/
def WellFormed (L : Lib) (frame : Bytes) : Prop :=
  (gzipCompress L frame).2 = none ∧
    (jsonUnmarshal L (gzipCompress L frame).1 SubResponse.zero).2 = none

/-- The frame is not gzip, or its payload does not decode as an envelope. -/
def Malformed (L : Lib) (frame : Bytes) : Prop :=
  (gzipCompress L frame).2 ≠ none ∨
    (jsonUnmarshal L (gzipCompress L frame).1 SubResponse.zero).2 ≠ none

/-- The `Tick` field a member stores a number into, if any. -/
def Tick.assignedBy (kv : String × JSON) : List String :=
  match kv.2 with
  | .num _ => (findField Tick.names kv.1).toList
  | _ => []

/-- The `Tick` fields the members of a tick object store a number into. -/
def Tick.assigned (members : List (String × JSON)) : List String :=
  members.flatMap Tick.assignedBy

/-- The member holds a string for `ch`. -/
def assignsCh (kv : String × JSON) : Bool :=
  match kv.2 with
  | .str _ => findField SubResponse.names kv.1 == some "ch"
  | _ => false

/-- The member holds a number for `ts`. -/
def assignsTs (kv : String × JSON) : Bool :=
  match kv.2 with
  | .num _ => findField SubResponse.names kv.1 == some "ts"
  | _ => false

/-- The `Tick` fields a top-level member stores a number into: those of its
object when the member is `tick`. -/
def tickAssignedBy (kv : String × JSON) : List String :=
  match kv.2 with
  | .obj members =>
    if findField SubResponse.names kv.1 = some "tick" then Tick.assigned members else []
  | _ => []

/-- The document is an object that gives `ch` a string, `ts` a number, and
every one of the eight `Tick` fields a number. -/
def Complete : JSON → Prop
  | .obj members =>
    (∃ kv ∈ members, assignsCh kv = true) ∧ (∃ kv ∈ members, assignsTs kv = true) ∧
      ∀ f ∈ Tick.names, f ∈ members.flatMap tickAssignedBy
  | _ => False

/-- Whenever the frame's payload scans and decodes without error, the document
is complete. -/
def FrameComplete (L : Lib) (frame : Bytes) : Prop :=
  ∀ doc, L.jsonScan (gzipCompress L frame).1 = .ok doc →
    (storeDocument L doc SubResponse.zero).2 = none → Complete doc

/-- Two ticks agree on the fields that satisfy `P`. -/
def Tick.agree (P : String → Prop) (a b : Tick) : Prop :=
  (P "id" → a.ID = b.ID) ∧ (P "open" → a.Open = b.Open) ∧ (P "close" → a.Close = b.Close) ∧
  (P "low" → a.Low = b.Low) ∧ (P "high" → a.High = b.High) ∧
  (P "amount" → a.Amount = b.Amount) ∧ (P "vol" → a.Volume = b.Volume) ∧
  (P "count" → a.Count = b.Count)

/-- Two envelopes agree on `ch` if `pch`, on `ts` if `pts`, and on the tick
fields that satisfy `PT`. -/
def SubResponse.agree (pch pts : Prop) (PT : String → Prop) (a b : SubResponse) : Prop :=
  (pch → a.Ch = b.Ch) ∧ (pts → a.Ts = b.Ts) ∧ Tick.agree PT a.Tick b.Tick

/-- What holds of the library's close replies along a run: before the reader
is started there is no reader; while the reader has not exited no reply was
sent; every reply echoes the code of a close frame that was read; there is at
most one reply. -/
def ReplyInv (s : State) (tr : List Event) : Prop :=
  (s.main = .connecting ∨ s.main = .subscribing ∨ s.main = .spawning ∨ s.main = .fatal →
    s.reader = .notStarted) ∧
  (s.reader ≠ .exited → ∀ e ∈ tr, e.isCloseReply = false) ∧
  (∀ d, Event.closeReply d ∈ tr →
    ∃ code e, d = FormatCloseMessage code "" ∧ Event.read (.closed code e true) ∈ tr) ∧
  (tr.filter Event.isCloseReply).length ≤ 1

/-! ## Sample runs -/

/-- A ticker time; its text is
`2026-11-01 10:00:01.000123456 +0000 UTC m=+1.000654321`. -/
def tickTime : Time := ⟨2026, "-11-01 10:00:01.000123456 +0000 UTC m=+1.000654321"⟩

/-- The bytes `main` sends to subscribe. -/
def subscribeText : Bytes :=
  bytesOf "\x7b\"sub\":\"market.btcusdt.kline.1min\",\"id\":\"id1\",\"freq-ms\":5000\x7d"

/-- Connect, subscribe, start reader and ticker, one heartbeat, then the
operator interrupts and the close frame is written. -/
def interruptRun : List Choice :=
  [.dial none, .subscribe none, .spawn, .startTicker, .selTick tickTime, .heartbeat none,
    .selInterrupt, .closeWrite none]

/-- What `interruptRun` does. -/
def interruptTrace : List Event :=
  [.log (.connecting "wss://api.huobi.pro/ws"),
    .write .subscribe 1 subscribeText none, .goReader, .newTicker,
    .write .heartbeat 1 (bytesOf tickTime.text) none, .log .interrupt,
    .write .close 8 [3, 232] none]

/-- Connect, subscribe, start reader and ticker, the peer sends a close frame
with status 1000 (the library replies, the read fails), and `main` leaves
through the `done` case. -/
def peerCloseRun : List Choice :=
  [.dial none, .subscribe none, .spawn, .startTicker,
    .read (.closed 1000 "websocket: close 1000 (normal)" true), .selDone]

/-- What `peerCloseRun` does. -/
def peerCloseTrace : List Event :=
  [.log (.connecting "wss://api.huobi.pro/ws"),
    .write .subscribe 1 subscribeText none, .goReader, .newTicker,
    .closeReply [3, 232],
    .read (.closed 1000 "websocket: close 1000 (normal)" true),
    .log (.err "read:" "websocket: close 1000 (normal)"), .closeDone,
    .tickerStop, .connClose]

/-- The subscribe write fails; the run goes on to start the reader and the
ticker, reads a frame and sends a heartbeat. -/
def failedSubscribeRun : List Choice :=
  [.dial none, .subscribe (some "write: broken pipe"), .spawn, .startTicker,
    .read (.msg frameChX), .selTick tickTime, .heartbeat none]

/-- What `failedSubscribeRun` does. -/
def failedSubscribeTrace : List Event :=
  [.log (.connecting "wss://api.huobi.pro/ws"),
    .write .subscribe 1 subscribeText (some "write: broken pipe"),
    .log (.err "write" "write: broken pipe"), .goReader, .newTicker,
    .read (.msg frameChX), .log (.recv ⟨"x", 0, Tick.zero⟩),
    .write .heartbeat 1 (bytesOf tickTime.text) none]

/-- A frame with a tick, then a frame without one. -/
def staleTickRun : List Choice :=
  [.dial none, .subscribe none, .spawn, .startTicker, .read (.msg frameTick5),
    .read (.msg frameChX)]

/-- What `staleTickRun` does: the record logged for the second frame carries
the tick id of the first. -/
def staleTickTrace : List Event :=
  [.log (.connecting "wss://api.huobi.pro/ws"),
    .write .subscribe 1 subscribeText none, .goReader, .newTicker,
    .read (.msg frameTick5), .log (.recv ⟨"", 0, ⟨5, 0, 0, 0, 0, 0, 0, 0⟩⟩),
    .read (.msg frameChX), .log (.recv ⟨"x", 0, ⟨5, 0, 0, 0, 0, 0, 0, 0⟩⟩)]

/-- A frame that inflates to `not json`. -/
def silentDropRun : List Choice :=
  [.dial none, .subscribe none, .spawn, .startTicker, .read (.msg frameNotJSON)]

/-- What `silentDropRun` does: nothing follows the read. -/
def silentDropTrace : List Event :=
  [.log (.connecting "wss://api.huobi.pro/ws"),
    .write .subscribe 1 subscribeText none, .goReader, .newTicker,
    .read (.msg frameNotJSON)]

/-- The state once the reader and the ticker run and nothing was read. -/
def streaming : State := ⟨.selecting, .running, SubResponse.zero⟩

/-- The envelope `textFull` decodes to. -/
def envelopeFull : SubResponse :=
  ⟨"market.btcusdt.kline.1min", 1700000000,
    ⟨1700000000, 0x40dd4c0000000000, 0x40dd652000000000, 0x40dd3f8000000000,
      0x40dd7e0000000000, 0x4029000000000000, 0x4116e36000000000, 42⟩⟩

/-- The graph of `step`, one constructor per transition; the proofs go by
cases on it. -/
inductive Step (L : Lib) : State → Choice → State → List Event → Prop where
  | dialOk (s : State) (h : s.main = .connecting) :
    Step L s (.dial none) { s with main := .subscribing }
      [.log (.connecting "wss://api.huobi.pro/ws")]
  | dialFail (s : State) (e : String) (h : s.main = .connecting) :
    Step L s (.dial (some e)) { s with main := .fatal }
      [.log (.connecting "wss://api.huobi.pro/ws"), .log (.err "dial:" e), .osExit 1]
  | subscribe (s : State) (err : Option String) (h : s.main = .subscribing) :
    Step L s (.subscribe err) { s with main := .spawning } (subscribeEvents err)
  | spawn (s : State) (h : s.main = .spawning) :
    Step L s .spawn
      { main := .startingTicker, reader := .running, subRes := SubResponse.zero } [.goReader]
  | startTicker (s : State) (h : s.main = .startingTicker) :
    Step L s .startTicker { s with main := .selecting } [.newTicker]
  | selDone (s : State) (h : s.main = .selecting) (hr : s.reader = .exited) :
    Step L s .selDone { s with main := .returned .readerDone } deferred
  | selTick (s : State) (t : Time) (h : s.main = .selecting) :
    Step L s (.selTick t) { s with main := .heartbeat t } []
  | heartbeatOk (s : State) (t : Time) (h : s.main = .heartbeat t) :
    Step L s (.heartbeat none) { s with main := .selecting }
      [.write .heartbeat TextMessage (bytesOf t.text) none]
  | heartbeatFail (s : State) (t : Time) (e : String) (h : s.main = .heartbeat t) :
    Step L s (.heartbeat (some e)) { s with main := .returned .heartbeatFailed }
      ([.write .heartbeat TextMessage (bytesOf t.text) (some e), .log (.err "write:" e)]
        ++ deferred)
  | selInterrupt (s : State) (h : s.main = .selecting) :
    Step L s .selInterrupt { s with main := .closing } [.log .interrupt]
  | closeOk (s : State) (h : s.main = .closing) :
    Step L s (.closeWrite none) { s with main := .grace }
      [.write .close CloseMessage (FormatCloseMessage CloseNormalClosure "") none]
  | closeFail (s : State) (e : String) (h : s.main = .closing) :
    Step L s (.closeWrite (some e)) { s with main := .returned .closeFailed }
      ([.write .close CloseMessage (FormatCloseMessage CloseNormalClosure "") (some e),
        .log (.err "write close:" e)] ++ deferred)
  | graceDone (s : State) (h : s.main = .grace) (hr : s.reader = .exited) :
    Step L s .graceDone { s with main := .returned .graceDone } deferred
  | graceTimeout (s : State) (h : s.main = .grace) :
    Step L s .graceTimeout { s with main := .returned .graceTimeout } deferred
  | readClosed (s : State) (code : Nat) (e : String) (replied : Bool)
    (h : ∀ c, s.main ≠ .returned c) (hg : replied = true → s.main ≠ .grace)
    (hr : s.reader = .running) :
    Step L s (.read (.closed code e replied)) { s with reader := .exited }
      ((if replied then [.closeReply (FormatCloseMessage code "")] else [])
        ++ [.read (.closed code e replied), .log (.err "read:" e), .closeDone])
  | readErr (s : State) (e : String) (h : ∀ c, s.main ≠ .returned c)
    (hr : s.reader = .running) :
    Step L s (.read (.err e)) { s with reader := .exited }
      [.read (.err e), .log (.err "read:" e), .closeDone]
  | readMsg (s : State) (m : Bytes) (h : ∀ c, s.main ≠ .returned c)
    (hr : s.reader = .running) :
    Step L s (.read (.msg m)) { s with subRes := (readerBody L s.subRes m).1 }
      (.read (.msg m) :: (readerBody L s.subRes m).2)

/-! ## The transition graph and the skeleton of a run -/

theorem step_graph (L : Lib) (s s1 : State) (c : Choice) (ev : List Event)
    (h : step L s c = some (s1, ev)) : Step L s c s1 ev := by
  unfold step at h
  split at h <;> simp only [Option.some.injEq, Prod.mk.injEq, reduceCtorEq] at h
  all_goals obtain ⟨rfl, rfl⟩ := h
  · exact .dialOk s (by assumption)
  · exact .dialFail s _ (by assumption)
  · exact .subscribe s _ (by assumption)
  · exact .spawn s (by assumption)
  · exact .startTicker s (by assumption)
  · exact .selDone s (by assumption) (by assumption)
  · exact .selTick s _ (by assumption)
  · exact .heartbeatOk s _ (by assumption)
  · exact .heartbeatFail s _ _ (by assumption)
  · exact .selInterrupt s (by assumption)
  · exact .closeOk s (by assumption)
  · exact .closeFail s _ (by assumption)
  · exact .graceDone s (by assumption) (by assumption)
  · exact .graceTimeout s (by assumption)
  · exact .readClosed s _ _ _ (by assumption) (by assumption) (by assumption)
  · exact .readErr s _ (by assumption) (by assumption)
  · exact .readMsg s _ (by assumption) (by assumption)

theorem marks_append (a b : List Event) : marks (a ++ b) = marks a ++ marks b := by
  simp [marks, List.filterMap_append]

theorem marks_readerBody (L : Lib) (b : SubResponse) (m : Bytes) :
    marks (readerBody L b m).2 = [] := by
  unfold readerBody
  simp only [marks, List.filterMap_append]
  cases (gzipCompress L m).2 <;> cases (jsonUnmarshal L (gzipCompress L m).1 b).2 <;>
    simp [Event.mark]

theorem marks_subscribeEvents (err : Option String) :
    marks (subscribeEvents err) = [.subscribe] := by
  cases err <;> simp [subscribeEvents, jsonMarshal, marks, Event.mark]

theorem Step.shape {L : Lib} {s s1 : State} {c : Choice} {ev : List Event}
    (h : Step L s c s1 ev) (tr0 : List Event) (hs : Shape s.main (marks tr0)) :
    Shape s1.main (marks (tr0 ++ ev)) := by
  rw [marks_append]
  generalize marks tr0 = M at hs ⊢
  cases h with
  | readErr e hm hr => simpa [marks, Event.mark] using hs
  | readClosed code e replied hm hg hr =>
    cases replied <;> simpa [marks, Event.mark] using hs
  | readMsg m hm hr =>
    have := marks_readerBody L s.subRes m
    simp only [marks, List.filterMap_cons, Event.mark] at this ⊢
    rw [this]
    simpa using hs
  | subscribe err hm =>
    rw [hm] at hs
    simp only [Shape] at hs ⊢
    rw [hs, marks_subscribeEvents]; rfl
  | heartbeatOk t hm =>
    rw [hm] at hs
    obtain ⟨n, hn⟩ := hs
    exact ⟨n + 1, by simp [hn, marks, Event.mark, List.replicate_succ']⟩
  | dialOk hm | dialFail e hm | spawn hm =>
    rw [hm] at hs
    simp only [Shape] at hs ⊢
    simp [hs, marks, Event.mark]
  | startTicker hm =>
    rw [hm] at hs
    simp only [Shape] at hs
    exact ⟨0, by simp [hs, marks, Event.mark]⟩
  | selDone hm hr | selTick t hm | heartbeatFail t e hm | selInterrupt hm | closeOk hm
  | closeFail e hm | graceDone hm hr | graceTimeout hm =>
    rw [hm] at hs
    obtain ⟨n, hn⟩ := hs
    exact ⟨n, by simp [hn, marks, Event.mark, deferred]⟩

/-- Induction along a run: a property of (state, events so far) kept by every
transition holds at the end of the run. -/
theorem run_induct (L : Lib) (P : State → List Event → Prop)
    (hstep : ∀ s c s1 ev tr0, Step L s c s1 ev → P s tr0 → P s1 (tr0 ++ ev)) :
    ∀ (cs : List Choice) (s : State) (tr0 : List Event) (s2 : State) (tr : List Event),
      P s tr0 → run L s cs = some (s2, tr) → P s2 (tr0 ++ tr) := by
  intro cs
  induction cs with
  | nil =>
    intro s tr0 s2 tr hp h
    simp only [run, Option.some.injEq, Prod.mk.injEq] at h
    obtain ⟨rfl, rfl⟩ := h
    simpa using hp
  | cons c cs ih =>
    intro s tr0 s2 tr hp h
    simp only [run] at h
    cases hc : step L s c with
    | none => simp [hc] at h
    | some r =>
      obtain ⟨s1, ev⟩ := r
      simp only [hc] at h
      cases hr : run L s1 cs with
      | none => simp [hr] at h
      | some r2 =>
        obtain ⟨s3, tr3⟩ := r2
        simp only [hr, Option.some.injEq, Prod.mk.injEq] at h
        obtain ⟨rfl, rfl⟩ := h
        have := ih s1 (tr0 ++ ev) s3 tr3 (hstep s c s1 ev tr0 (step_graph L s s1 c ev hc) hp) hr
        simpa [List.append_assoc] using this

theorem run_shape (L : Lib) (cs : List Choice) (s : State) (tr : List Event)
    (h : run L init cs = some (s, tr)) : Shape s.main (marks tr) := by
  have := run_induct L (fun s tr => Shape s.main (marks tr))
    (fun s c s1 ev tr0 hst hp => hst.shape tr0 hp) cs init [] s tr (by simp [init, Shape, marks]) h
  simpa using this

theorem readerBody_events (L : Lib) (b : SubResponse) (m : Bytes) :
    ∀ e ∈ (readerBody L b m).2,
      (∃ x, e = .log (.err "" x)) ∨ (∃ v, e = .log (.recv v)) := by
  intro e he
  simp only [readerBody, List.mem_append] at he
  rcases he with he | he
  · split at he
    · simp only [List.mem_singleton] at he
      exact Or.inl ⟨_, he⟩
    · simp at he
  · split at he
    · simp only [List.mem_singleton] at he
      exact Or.inr ⟨_, he⟩
    · simp at he

theorem wellFormed_readerBody (L : Lib) (b : SubResponse) (m : Bytes) :
    ∀ e ∈ (readerBody L b m).2, e.wellFormed := by
  intro e he
  rcases readerBody_events L b m e he with ⟨x, rfl⟩ | ⟨v, rfl⟩ <;> trivial

theorem Step.wellFormed {L : Lib} {s s1 : State} {c : Choice} {ev : List Event}
    (h : Step L s c s1 ev) : ∀ e ∈ ev, e.wellFormed := by
  cases h with
  | readMsg m hm hr =>
    intro e he
    rcases List.mem_cons.1 he with rfl | he
    · trivial
    · exact wellFormed_readerBody L _ m e he
  | subscribe err hm =>
    cases err <;> simp [subscribeEvents, jsonMarshal, Event.wellFormed]
  | heartbeatOk t hm => simp [Event.wellFormed]; exact ⟨t, rfl⟩
  | heartbeatFail t e hm => simp [Event.wellFormed, deferred]; exact ⟨t, rfl⟩
  | readClosed code e replied hm hg hr =>
    cases replied <;> simp [Event.wellFormed]
    exact ⟨code, rfl⟩
  | readErr e hm hr | dialOk hm | dialFail e hm | spawn hm | startTicker hm | selDone hm hr
  | selTick t hm | selInterrupt hm | closeOk hm | closeFail e hm | graceDone hm hr
  | graceTimeout hm => simp [Event.wellFormed, deferred]

theorem run_wellFormed (L : Lib) (cs : List Choice) (s0 s : State) (tr : List Event)
    (h : run L s0 cs = some (s, tr)) : ∀ e ∈ tr, e.wellFormed := by
  have := run_induct L (fun _ tr => ∀ e ∈ tr, e.wellFormed)
    (fun s c s1 ev tr0 hst hp e he => by
      rcases List.mem_append.1 he with h1 | h1
      · exact hp e h1
      · exact hst.wellFormed e h1) cs s0 [] s tr (by simp) h
  simpa using this

theorem mark_of_closeFrame (e : Event) (hw : e.wellFormed) (hc : e.isCloseFrame = true) :
    ∃ f, e.mark = some (.close f) := by
  cases e with
  | write site mt d err =>
    cases site with
    | close => exact ⟨err.isSome, rfl⟩
    | subscribe =>
      simp only [Event.wellFormed] at hw
      simp [Event.isCloseFrame, hw.1, TextMessage, CloseMessage] at hc
    | heartbeat =>
      simp only [Event.wellFormed] at hw
      simp [Event.isCloseFrame, hw.1, TextMessage, CloseMessage] at hc
  | _ => simp [Event.isCloseFrame] at hc

theorem mark_of_write (e : Event) (hw : e.isWrite = true) : ∃ m, e.mark = some m := by
  cases e with
  | write site mt d err => cases site <;> exact ⟨_, rfl⟩
  | _ => simp [Event.isWrite] at hw

theorem mark_close_inv (e : Event) (f : Bool) (h : e.mark = some (.close f)) :
    ∃ mt d err, e = .write .close mt d err ∧ err.isSome = f := by
  cases e with
  | write site mt d err =>
    cases site <;> simp [Event.mark] at h
    exact ⟨mt, d, err, rfl, h⟩
  | log l => cases l <;> simp [Event.mark] at h
  | _ => simp [Event.mark] at h

theorem mark_interrupt_inv (e : Event) (h : e.mark = some .interrupt) :
    e = .log .interrupt := by
  cases e with
  | write site mt d err => cases site <;> simp [Event.mark] at h
  | log l =>
    cases l with
    | interrupt => rfl
    | connecting u => simp [Event.mark] at h
    | err a b => simp [Event.mark] at h
    | recv v => simp [Event.mark] at h
  | _ => simp [Event.mark] at h

theorem mem_marks {e : Event} {m : Mark} {tr : List Event} (he : e ∈ tr)
    (hm : e.mark = some m) : m ∈ marks tr :=
  List.mem_filterMap.2 ⟨e, he, hm⟩

/-- The skeleton after the interrupt was taken and the close write made. -/
theorem closed_trace (L : Lib) (cs : List Choice) (s : State) (tr : List Event)
    (h : run L init cs = some (s, tr)) (n : Nat) (b : Bool)
    (hm : marks tr = [.subscribe, .go, .ticker] ++ List.replicate n (.heartbeat false)
      ++ [.interrupt, .close b]) :
    ∃ pre err post,
      tr = pre ++ .write .close CloseMessage (FormatCloseMessage CloseNormalClosure "") err
        :: post ∧
      err.isSome = b ∧ .log .interrupt ∈ pre ∧
      (∀ e ∈ pre, e.isCloseFrame = false) ∧ (∀ e ∈ post, e.isWrite = false) := by
  have hwf := run_wellFormed L cs init s tr h
  obtain ⟨l1, l2, rfl, h1, h2⟩ := List.filterMap_eq_append_iff.1 hm
  obtain ⟨a1, x, a2, rfl, ha1, hx, ha2⟩ := List.filterMap_eq_cons_iff.1 h2
  obtain ⟨b1, y, b2, rfl, hb1, hy, hb2⟩ := List.filterMap_eq_cons_iff.1 ha2
  obtain ⟨mt, d, err, rfl, herr⟩ := mark_close_inv y b hy
  have hy_wf := hwf (.write .close mt d err) (by simp)
  simp only [Event.wellFormed] at hy_wf
  obtain ⟨rfl, rfl⟩ := hy_wf
  obtain rfl := mark_interrupt_inv x hx
  refine ⟨l1 ++ (a1 ++ .log .interrupt :: b1), err, b2, by simp, herr, by simp, ?_, ?_⟩
  · intro e he
    by_contra hc
    have hc : e.isCloseFrame = true := by simpa using hc
    obtain ⟨f, hf⟩ := mark_of_closeFrame e (hwf e (by
      simp only [List.mem_append, List.mem_cons] at he ⊢
      tauto)) hc
    simp only [List.mem_append, List.mem_cons] at he
    rcases he with he | he | rfl | he
    · have := mem_marks he hf
      rw [marks, h1] at this
      simp [List.mem_replicate] at this
    · have := ha1 e he
      rw [hf] at this; cases this
    · rw [hf] at hx; cases hx
    · have := hb1 e he
      rw [hf] at this; cases this
  · intro e he
    by_contra hc
    have hc : e.isWrite = true := by simpa using hc
    obtain ⟨m, hm⟩ := mark_of_write e hc
    have := List.filterMap_eq_nil_iff.1 hb2 e he
    rw [hm] at this; cases this

/-- C6: once the supervisor has taken the interrupt case (the line `interrupt`
is on the log), either the close write is the call `main` stands at and no
close frame has been written yet, or the run holds exactly one close write:
a `CloseMessage` whose payload is status 1000 (bytes 3, 232) with an empty
reason, with the interrupt before it, no close frame before it and no
`WriteMessage` call of any kind after it. `main` has then returned if the
write failed; if it succeeded `main` has returned through the `done` case or
the timer, or waits in the inner `select`, where the timer case is always
possible and returns, and the `done` case returns once the reader has
exited. -/
theorem C6_interrupt_one_close_then_no_write (L : Lib) (cs : List Choice) (s : State)
    (tr : List Event) (h : run L init cs = some (s, tr)) (hint : .log .interrupt ∈ tr) :
    FormatCloseMessage CloseNormalClosure "" = [3, 232] ∧
    ((s.main = .closing ∧ (∀ e ∈ tr, e.isCloseFrame = false) ∧
        step L s (.closeWrite none) = some ({ s with main := .grace },
          [.write .close CloseMessage [3, 232] none]) ∧
        ∀ x, ∃ ev, step L s (.closeWrite (some x))
          = some ({ s with main := .returned .closeFailed },
              .write .close CloseMessage [3, 232] (some x) :: ev) ∧
          ∀ e ∈ ev, e.isWrite = false) ∨
      ∃ pre err post,
        tr = pre ++ .write .close CloseMessage [3, 232] err :: post ∧
        .log .interrupt ∈ pre ∧
        (∀ e ∈ pre, e.isCloseFrame = false) ∧ (∀ e ∈ post, e.isWrite = false) ∧
        ((err ≠ none ∧ s.main = .returned .closeFailed) ∨
          (err = none ∧ (s.main = .returned .graceDone ∨ s.main = .returned .graceTimeout ∨
            (s.main = .grace ∧
              step L s .graceTimeout
                = some ({ s with main := .returned .graceTimeout }, deferred) ∧
              (s.reader = .exited → step L s .graceDone
                = some ({ s with main := .returned .graceDone }, deferred))))))) := by
  have hfmt : FormatCloseMessage CloseNormalClosure "" = [3, 232] := by decide
  refine ⟨hfmt, ?_⟩
  have hsh := run_shape L cs s tr h
  have hwf := run_wellFormed L cs init s tr h
  have hi : Mark.interrupt ∈ marks tr := mem_marks hint rfl
  have key := closed_trace L cs s tr h
  rw [hfmt] at key
  obtain ⟨m, r, b⟩ := s
  simp only at hsh
  cases m with
  | connecting | fatal | subscribing | spawning | startingTicker =>
    simp only [Shape] at hsh
    rw [hsh] at hi
    simp at hi
  | selecting | heartbeat t =>
    obtain ⟨n, hn⟩ := hsh
    rw [hn] at hi
    simp [List.mem_replicate] at hi
  | closing =>
    left
    obtain ⟨n, hn⟩ := hsh
    refine ⟨rfl, ?_, ?_, ?_⟩
    · intro e he
      by_contra hc
      have hc : e.isCloseFrame = true := by simpa using hc
      obtain ⟨f, hf⟩ := mark_of_closeFrame e (hwf e he) hc
      have := mem_marks he hf
      rw [hn] at this
      simp [List.mem_replicate] at this
    · simp [step, hfmt]
    · intro x
      exact ⟨.log (.err "write close:" x) :: deferred, by simp [step, hfmt],
        by simp [deferred, Event.isWrite]⟩
  | grace =>
    right
    obtain ⟨n, hn⟩ := hsh
    obtain ⟨pre, err, post, h1, h2, h3, h4, h5⟩ := key n false hn
    refine ⟨pre, err, post, h1, h3, h4, h5, Or.inr ⟨by simpa using h2, ?_⟩⟩
    right; right
    refine ⟨rfl, by simp [step], ?_⟩
    intro hr
    simp only at hr
    subst hr
    simp [step]
  | returned cause =>
    cases cause with
    | readerDone =>
      obtain ⟨n, hn⟩ := hsh
      rw [hn] at hi
      simp [List.mem_replicate] at hi
    | heartbeatFailed =>
      obtain ⟨n, hn⟩ := hsh
      rw [hn] at hi
      simp [List.mem_replicate] at hi
    | closeFailed =>
      right
      obtain ⟨n, hn⟩ := hsh
      obtain ⟨pre, err, post, h1, h2, h3, h4, h5⟩ := key n true hn
      refine ⟨pre, err, post, h1, h3, h4, h5, Or.inl ⟨?_, rfl⟩⟩
      intro hnone
      simp [hnone] at h2
    | graceDone =>
      right
      obtain ⟨n, hn⟩ := hsh
      obtain ⟨pre, err, post, h1, h2, h3, h4, h5⟩ := key n false hn
      exact ⟨pre, err, post, h1, h3, h4, h5, Or.inr ⟨by simpa using h2, Or.inl rfl⟩⟩
    | graceTimeout =>
      right
      obtain ⟨n, hn⟩ := hsh
      obtain ⟨pre, err, post, h1, h2, h3, h4, h5⟩ := key n false hn
      exact ⟨pre, err, post, h1, h3, h4, h5, Or.inr ⟨by simpa using h2, Or.inr (Or.inl rfl)⟩⟩

/-- C6 on `interruptRun`: the interrupt is on the log, the one close frame is
the last event, and `main` waits in the inner `select`. -/
theorem C6_interrupt_one_close_then_no_write_witness :
    run sampleLib init interruptRun
      = some (⟨.grace, .running, SubResponse.zero⟩, interruptTrace) ∧
    Event.log .interrupt ∈ interruptTrace ∧
    ∃ pre err post,
      interruptTrace = pre ++ .write .close CloseMessage [3, 232] err :: post ∧
      (∀ e ∈ post, e.isWrite = false) := by
  refine ⟨by decide, by decide, ?_⟩
  have h := C6_interrupt_one_close_then_no_write sampleLib interruptRun
    ⟨.grace, .running, SubResponse.zero⟩ interruptTrace (by decide) (by decide)
  rcases h.2 with ⟨hc, _⟩ | ⟨pre, err, post, h1, _, _, h4, _⟩
  · cases hc
  · exact ⟨pre, err, post, h1, h4⟩

/-- In every run where `main` returns through the `done` case of the
supervisor loop or through the failed heartbeat write, no `WriteMessage` call
of the run carries a close message, and the interrupt case was never
taken. -/
theorem main_sends_no_close_frame (L : Lib) (cs : List Choice)
    (s : State) (tr : List Event) (h : run L init cs = some (s, tr))
    (hret : s.main = .returned .readerDone ∨ s.main = .returned .heartbeatFailed) :
    (∀ e ∈ tr, e.isCloseFrame = false) ∧ Event.log .interrupt ∉ tr := by
  have hsh := run_shape L cs s tr h
  have hwf := run_wellFormed L cs init s tr h
  have hno1 : Mark.interrupt ∉ marks tr := by
    intro hm
    rcases hret with hr | hr <;> rw [hr] at hsh <;> obtain ⟨n, hn⟩ := hsh <;>
      rw [hn] at hm <;> simp [List.mem_replicate] at hm
  have hno2 : ∀ f, Mark.close f ∉ marks tr := by
    intro f hm
    rcases hret with hr | hr <;> rw [hr] at hsh <;> obtain ⟨n, hn⟩ := hsh <;>
      rw [hn] at hm <;> simp [List.mem_replicate] at hm
  constructor
  · intro e he
    by_contra hc
    have hc : e.isCloseFrame = true := by simpa using hc
    obtain ⟨f, hf⟩ := mark_of_closeFrame e (hwf e he) hc
    exact hno2 f (mem_marks he hf)
  · intro hi
    exact hno1 (mem_marks hi rfl)

theorem ReplyInv.quiet {s s1 : State} {tr0 ev : List Event} (hp : ReplyInv s tr0)
    (hev : ∀ x ∈ ev, x.isCloseReply = false)
    (hr : s1.reader ≠ .exited → s.reader ≠ .exited)
    (hm : s1.main = .connecting ∨ s1.main = .subscribing ∨ s1.main = .spawning
      ∨ s1.main = .fatal → s1.reader = .notStarted) :
    ReplyInv s1 (tr0 ++ ev) := by
  obtain ⟨_, p2, p3, p4⟩ := hp
  refine ⟨hm, ?_, ?_, ?_⟩
  · intro hne e he
    rcases List.mem_append.1 he with h | h
    · exact p2 (hr hne) e h
    · exact hev e h
  · intro d hd
    rcases List.mem_append.1 hd with h | h
    · obtain ⟨code, e, h1, h2⟩ := p3 d h
      exact ⟨code, e, h1, List.mem_append_left _ h2⟩
    · have := hev _ h
      simp [Event.isCloseReply] at this
  · have : ev.filter Event.isCloseReply = [] := by
      rw [List.filter_eq_nil_iff]
      intro x hx
      simp [hev x hx]
    rw [List.filter_append, this, List.append_nil]
    exact p4

theorem Step.reply {L : Lib} {s s1 : State} {c : Choice} {ev : List Event}
    (h : Step L s c s1 ev) (tr0 : List Event) (hp : ReplyInv s tr0) :
    ReplyInv s1 (tr0 ++ ev) := by
  have p1 := hp.1
  cases h with
  | readClosed code e replied hm hg hr =>
    obtain ⟨_, p2, p3, p4⟩ := hp
    have hno := p2 (by rw [hr]; decide)
    have hnil : tr0.filter Event.isCloseReply = [] := by
      rw [List.filter_eq_nil_iff]
      intro x hx
      simp [hno x hx]
    refine ⟨?_, ?_, ?_, ?_⟩
    · intro hmain
      have := p1 hmain
      rw [hr] at this
      cases this
    · intro hne; exact absurd rfl hne
    · intro d hd
      rcases List.mem_append.1 hd with h | h
      · have := hno _ h
        simp [Event.isCloseReply] at this
      · cases replied with
        | false => simp at h
        | true =>
          simp only [↓reduceIte, List.singleton_append, List.mem_cons, Event.closeReply.injEq,
            reduceCtorEq, List.mem_singleton, or_false, false_or, List.not_mem_nil] at h
          subst h
          exact ⟨code, e, rfl, by simp⟩
    · rw [List.filter_append, hnil]
      cases replied <;> simp [List.filter, Event.isCloseReply]
  | readErr e hm hr =>
    refine hp.quiet (by simp [Event.isCloseReply]) (fun h => absurd rfl h) ?_
    intro hmain
    have := p1 hmain
    rw [hr] at this
    cases this
  | readMsg m hm hr =>
    refine hp.quiet ?_ (fun h => h) ?_
    · intro x hx
      rcases List.mem_cons.1 hx with rfl | hx
      · rfl
      · rcases readerBody_events L _ m x hx with ⟨y, rfl⟩ | ⟨v, rfl⟩ <;> rfl
    · exact p1
  | subscribe err hm =>
    refine hp.quiet ?_ (fun h => h) ?_
    · cases err <;> simp [subscribeEvents, jsonMarshal, Event.isCloseReply]
    · intro _
      exact p1 (Or.inr (Or.inl hm))
  | spawn hm =>
    refine hp.quiet (by simp [Event.isCloseReply]) ?_ (by simp)
    intro _
    rw [p1 (Or.inr (Or.inr (Or.inl hm)))]
    decide
  | dialOk hm =>
    exact hp.quiet (by simp [Event.isCloseReply]) (fun h => h) (fun _ => p1 (Or.inl hm))
  | dialFail e hm =>
    exact hp.quiet (by simp [Event.isCloseReply]) (fun h => h) (fun _ => p1 (Or.inl hm))
  | startTicker hm | selDone hm hr | selTick t hm | selInterrupt hm | closeOk hm
  | closeFail e hm | graceDone hm hr | graceTimeout hm | heartbeatOk t hm
  | heartbeatFail t e hm =>
    exact hp.quiet (by simp [Event.isCloseReply, deferred]) (fun h => h) (by simp)

theorem run_reply (L : Lib) (cs : List Choice) (s : State) (tr : List Event)
    (h : run L init cs = some (s, tr)) : ReplyInv s tr := by
  have := run_induct L ReplyInv (fun s c s1 ev tr0 hst hp => hst.reply tr0 hp) cs init [] s tr
    (by simp [init, ReplyInv]) h
  simpa using this

/-- C8, as the code has it: in every run where `main` returns through the
`done` case of the supervisor loop or through the failed heartbeat write,
`main` sends no close frame: no `WriteMessage` call of the run carries a
close message and the interrupt case was never taken. A close message can
still reach the connection in such a run, written by the websocket library:
its reply to the peer's close frame, sent from inside the `ReadMessage` call
that then returns the error. There is at most one such reply, it echoes the
status code of the close frame that was read, and the reader has exited. -/
theorem C8_main_sends_no_close_frame (L : Lib) (cs : List Choice)
    (s : State) (tr : List Event) (h : run L init cs = some (s, tr))
    (hret : s.main = .returned .readerDone ∨ s.main = .returned .heartbeatFailed) :
    (∀ e ∈ tr, e.isCloseFrame = false) ∧ Event.log .interrupt ∉ tr ∧
    (∀ data, Event.closeReply data ∈ tr →
      s.reader = .exited ∧
      ∃ code e, data = FormatCloseMessage code "" ∧ Event.read (.closed code e true) ∈ tr) ∧
    (tr.filter Event.isCloseReply).length ≤ 1 := by
  obtain ⟨a1, a2⟩ := main_sends_no_close_frame L cs s tr h hret
  obtain ⟨_, p2, p3, p4⟩ := run_reply L cs s tr h
  refine ⟨a1, a2, ?_, p4⟩
  intro d hd
  refine ⟨?_, p3 d hd⟩
  by_contra hne
  have := p2 hne _ hd
  simp [Event.isCloseReply] at this

/-- C8, the claim as stated fails: in `peerCloseRun` the peer sends a close
frame, the reader exits, `main` returns through the `done` case, and a close
message (status 1000, bytes 3, 232) was written to the connection: the
library's reply, made inside `ReadMessage`. -/
theorem C8_close_reply_is_written :
    run sampleLib init peerCloseRun
      = some (⟨.returned .readerDone, .exited, SubResponse.zero⟩, peerCloseTrace) ∧
    Event.closeReply [3, 232] ∈ peerCloseTrace ∧
    FormatCloseMessage CloseNormalClosure "" = [3, 232] := by
  decide

/-- C8 on `peerCloseRun`: `main` returns through `done`, no `WriteMessage` call
carries a close message, and the one close reply is the library's. -/
theorem C8_main_sends_no_close_frame_witness :
    run sampleLib init peerCloseRun
      = some (⟨.returned .readerDone, .exited, SubResponse.zero⟩, peerCloseTrace) ∧
    (∀ e ∈ peerCloseTrace, e.isCloseFrame = false) ∧ Event.log .interrupt ∉ peerCloseTrace ∧
    (peerCloseTrace.filter Event.isCloseReply).length ≤ 1 := by
  have h := C8_main_sends_no_close_frame sampleLib peerCloseRun
    ⟨.returned .readerDone, .exited, SubResponse.zero⟩ peerCloseTrace (by decide) (Or.inl rfl)
  exact ⟨by decide, h.1, h.2.1, h.2.2.2⟩


/-- C1, the code at a failing input: the subscribe write returns an error, the
error is logged, and the run goes on: the reader is started, the ticker is
started, `ReadMessage` is called and its frame logged, and a heartbeat is
written. -/
theorem C1_failed_subscribe_goes_on_to_read :
    run sampleLib init failedSubscribeRun
      = some (⟨.selecting, .running, ⟨"x", 0, Tick.zero⟩⟩, failedSubscribeTrace) := by
  decide

/-! ## The subscribe encoding -/

theorem digitsValue_toDigitsCore (f : Nat) : ∀ (n : Nat) (ds : List Char), n < f →
    digitsValue (Nat.toDigitsCore 10 f n ds) 0 = digitsValue ds n := by
  induction f with
  | zero => intro n ds h; omega
  | succ f ih =>
    intro n ds h
    have hd : digitValue (Nat.digitChar (n % 10)) = some (n % 10) := by
      have : n % 10 < 10 := Nat.mod_lt _ (by decide)
      generalize n % 10 = k at this
      interval_cases k <;> decide
    simp only [Nat.toDigitsCore]
    split
    · rename_i h0
      simp only [digitsValue, hd]
      have : n = n % 10 := by omega
      rw [Nat.zero_mul, Nat.zero_add, ← this]
    · rename_i h0
      rw [ih (n / 10) _ (by omega)]
      simp only [digitsValue, hd]
      congr 1
      omega

/-- The decimal text of a non-negative `int` reads back as that `int`. -/
theorem parseInt64_formatInt (n : Int) (h0 : 0 ≤ n) (h1 : n < 2 ^ 63) :
    parseInt64 (formatInt n) = some n := by
  obtain ⟨k, rfl⟩ := Int.eq_ofNat_of_zero_le h0
  have hk : k < 2 ^ 63 := by exact_mod_cast h1
  have hv : digitsValue (Nat.toDigits 10 k) 0 = some k := by
    unfold Nat.toDigits
    rw [digitsValue_toDigitsCore (k + 1) k [] (by omega)]
    rfl
  have hf : (formatInt (k : Int)).toList = Nat.toDigits 10 k := by
    have : ¬ ((k : Int) < 0) := by omega
    simp [formatInt, Nat.repr, List.asString, this]
  unfold parseInt64
  rw [hf]
  cases hd : Nat.toDigits 10 k with
  | nil =>
    rw [hd] at hv
    simp only [digitsValue, Option.some.injEq] at hv
    subst hv
    exact absurd hd (by decide)
  | cons c cs =>
    rw [hd] at hv
    have hc : digitValue c ≠ none := by
      intro hn
      simp [digitsValue, hn] at hv
    have h1 : c ≠ '-' := by
      intro hh; subst hh; exact hc (by decide)
    have h2 : c ≠ '+' := by
      intro hh; subst hh; exact hc (by decide)
    have hk2 : k < 9223372036854775808 := by norm_num at hk; exact hk
    simp [h1, h2, hv, hk2]

/-! ## Reading the encoding back: what is written is what is read -/

theorem char_range (c : Char) : c.toNat < 0xD800 ∨ (0xDFFF < c.toNat ∧ c.toNat < 0x110000) :=
  c.valid

theorem isCont_low (k : Nat) : isCont (0x80 + k % 64) = true := by
  simp only [isCont, Bool.and_eq_true, decide_eq_true_eq]
  omega

theorem utf8First_char (c : Char) (rest : Bytes) :
    utf8First (utf8Char c ++ rest) = some (c, rest) := by
  have hv := char_range c
  have hc : Char.ofNat c.toNat = c := Char.ofNat_toNat c
  unfold utf8Char
  simp only
  generalize hn : c.toNat = n at hv hc
  split_ifs with h1 h2 h3
  · simp only [List.singleton_append, utf8First, h1, ↓reduceIte, hc]
  · have e : (0xC0 + n / 64 - 0xC0) * 64 + (0x80 + n % 64 - 0x80) = n := by omega
    simp only [List.cons_append, List.nil_append, utf8First]
    rw [if_neg (by omega), if_pos (by omega), if_pos ⟨by omega, isCont_low n, by omega⟩, e, hc]
  · have e : (0xE0 + n / 4096 - 0xE0) * 4096 + (0x80 + n / 64 % 64 - 0x80) * 64
        + (0x80 + n % 64 - 0x80) = n := by omega
    simp only [List.cons_append, List.nil_append, utf8First]
    rw [if_neg (by omega), if_neg (by omega), if_pos (by omega),
      if_pos ⟨isCont_low _, isCont_low n, by omega, by omega⟩, e, hc]
  · have e : (0xF0 + n / 262144 - 0xF0) * 262144 + (0x80 + n / 4096 % 64 - 0x80) * 4096
        + (0x80 + n / 64 % 64 - 0x80) * 64 + (0x80 + n % 64 - 0x80) = n := by omega
    simp only [List.cons_append, List.nil_append, utf8First]
    rw [if_neg (by omega), if_neg (by omega), if_neg (by omega), if_pos (by omega),
      if_pos ⟨isCont_low _, isCont_low _, isCont_low n, by omega, by omega⟩, e, hc]

theorem utf8Char_ne_nil (c : Char) : utf8Char c ≠ [] := by
  unfold utf8Char
  simp only
  split_ifs <;> simp

theorem utf8DecodeLoop_chars (cs : List Char) :
    ∀ fuel, cs.length ≤ fuel → utf8DecodeLoop fuel (cs.flatMap utf8Char) = some cs := by
  induction cs with
  | nil => intro fuel _; cases fuel <;> simp [utf8DecodeLoop]
  | cons c rest ih =>
    intro fuel hf
    cases fuel with
    | zero => simp at hf
    | succ f =>
      have hne : utf8Char c ++ rest.flatMap utf8Char ≠ [] := by
        intro h
        exact utf8Char_ne_nil c (List.append_eq_nil.1 h).1
      simp only [List.flatMap_cons, utf8DecodeLoop, hne, ↓reduceIte, utf8First_char]
      rw [ih f (by simpa using hf)]
      rfl

theorem length_le_flatMap_utf8Char (cs : List Char) :
    cs.length ≤ (cs.flatMap utf8Char).length := by
  induction cs with
  | nil => simp
  | cons c rest ih =>
    have : 1 ≤ (utf8Char c).length := by
      cases h : utf8Char c with
      | nil => exact absurd h (utf8Char_ne_nil c)
      | cons _ _ => simp
    simp only [List.flatMap_cons, List.length_append, List.length_cons]
    omega

/-- Decoding the bytes of a string gives its code points back. -/
theorem utf8Decode_bytesOf (s : String) : utf8Decode (bytesOf s) = some s.toList :=
  utf8DecodeLoop_chars s.toList _ (length_le_flatMap_utf8Char s.toList)

theorem hexValue_hexDigit (k : Nat) (h : k < 16) : hexValue (hexDigit k) = some k := by
  interval_cases k <;> decide

theorem char_eq_of_toNat {c : Char} {n : Nat} (h : c.toNat = n) : c = Char.ofNat n := by
  rw [← h, Char.ofNat_toNat]

theorem readRune_escape (c : Char) (rest : List Char) :
    readRune (escapeRune c ++ rest) = some (some c, rest) := by
  unfold escapeRune
  simp only
  split_ifs with h1 h2 h3 h4 h5 h6 h7 h8 h9
  · subst h1; rfl
  · subst h2; rfl
  · rw [char_eq_of_toNat h3]; rfl
  · rw [char_eq_of_toNat h4]; rfl
  · rw [char_eq_of_toNat h5]; rfl
  · rw [char_eq_of_toNat h6]; rfl
  · rw [char_eq_of_toNat h7]; rfl
  · have hn : c.toNat < 64 := by
      rcases h8 with h | h | h | h
      · omega
      · subst h; decide
      · subst h; decide
      · subst h; decide
    have e1 := hexValue_hexDigit (c.toNat / 16) (by omega)
    have e2 := hexValue_hexDigit (c.toNat % 16) (by omega)
    have e0 : hexValue '0' = some 0 := by decide
    have e : 0 * 4096 + 0 * 256 + c.toNat / 16 * 16 + c.toNat % 16 = c.toNat := by omega
    simp only [List.cons_append, List.nil_append, readRune, ↓reduceIte, e0, e1, e2, e,
      Char.ofNat_toNat]
    have hns : ¬(55296 ≤ c.toNat ∧ c.toNat ≤ 57343) := by omega
    rw [if_neg hns, if_neg (show ¬ (Char.ofNat 92 = Char.ofNat 34) by decide)]
  · have e2 := hexValue_hexDigit (c.toNat % 16) (by omega)
    have e0 : hexValue '0' = some 0 := by decide
    have e3 : hexValue '2' = some 2 := by decide
    have e : 2 * 4096 + 0 * 256 + 2 * 16 + c.toNat % 16 = c.toNat := by omega
    simp only [List.cons_append, List.nil_append, readRune, ↓reduceIte, e0, e2, e3, e,
      Char.ofNat_toNat]
    have hns : ¬(55296 ≤ c.toNat ∧ c.toNat ≤ 57343) := by omega
    rw [if_neg hns, if_neg (show ¬ (Char.ofNat 92 = Char.ofNat 34) by decide)]
  · simp only [List.singleton_append, readRune]
    rw [if_neg h2, if_neg h1, if_neg (by
      intro hlt
      exact h8 (Or.inl hlt))]

theorem escapeRune_ne_nil (c : Char) : escapeRune c ≠ [] := by
  unfold escapeRune
  simp only
  split_ifs <;> simp

theorem readStringLoop_escaped (s : List Char) (rest : List Char) :
    ∀ fuel, s.length < fuel →
      readStringLoop fuel (s.flatMap escapeRune ++ Char.ofNat 34 :: rest) = some (s, rest) := by
  induction s with
  | nil =>
    intro fuel hf
    cases fuel with
    | zero => simp at hf
    | succ f => rfl
  | cons c cs ih =>
    intro fuel hf
    cases fuel with
    | zero => simp at hf
    | succ f =>
      simp only [List.flatMap_cons, List.append_assoc, readStringLoop, readRune_escape]
      rw [ih f (by simpa using hf)]
      rfl

theorem length_le_flatMap_escapeRune (cs : List Char) :
    cs.length ≤ (cs.flatMap escapeRune).length := by
  induction cs with
  | nil => simp
  | cons c rest ih =>
    have : 1 ≤ (escapeRune c).length := by
      cases h : escapeRune c with
      | nil => exact absurd h (escapeRune_ne_nil c)
      | cons _ _ => simp
    simp only [List.flatMap_cons, List.length_append, List.length_cons]
    omega

/-- What `encodeString` writes after the opening quote reads back as the
string. -/
theorem readString_escaped (s : List Char) (rest : List Char) :
    readString (s.flatMap escapeRune ++ Char.ofNat 34 :: rest) = some (s, rest) := by
  apply readStringLoop_escaped
  have := length_le_flatMap_escapeRune s
  simp only [List.length_append, List.length_cons]
  omega

theorem span_digits (ds : List Char) (x : Char) (rest : List Char)
    (hd : ∀ c ∈ ds, isDigit c = true) (hx : isDigit x = false) :
    (ds ++ x :: rest).takeWhile isDigit = ds ∧ (ds ++ x :: rest).dropWhile isDigit = x :: rest := by
  induction ds with
  | nil => simp [List.takeWhile, List.dropWhile, hx]
  | cons c cs ih =>
    have hc := hd c (List.mem_cons_self _ _)
    have := ih (fun c h => hd c (List.mem_cons_of_mem _ h))
    simp [List.takeWhile, List.dropWhile, hc, this]

theorem digitsValue_isDigit (ds : List Char) :
    ∀ acc v, digitsValue ds acc = some v → ∀ c ∈ ds, isDigit c = true := by
  induction ds with
  | nil => intro _ _ _ c hc; simp at hc
  | cons d rest ih =>
    intro acc v h c hc
    simp only [digitsValue] at h
    cases hd : digitValue d with
    | none => simp [hd] at h
    | some k =>
      simp only [hd] at h
      rcases List.mem_cons.1 hc with rfl | hc
      · simp [isDigit, hd]
      · exact ih _ _ h c hc

theorem toDigits_isDigit (k : Nat) : ∀ c ∈ Nat.toDigits 10 k, isDigit c = true := by
  have hv : digitsValue (Nat.toDigits 10 k) 0 = some k := by
    unfold Nat.toDigits
    rw [digitsValue_toDigitsCore (k + 1) k [] (by omega)]
    rfl
  exact digitsValue_isDigit _ _ _ hv

theorem toDigitsCore_head (f : Nat) : ∀ (n : Nat) (ds : List Char), 0 < n → n < f →
    ∃ d tl, 0 < d ∧ d < 10 ∧ Nat.toDigitsCore 10 f n ds = Nat.digitChar d :: tl := by
  induction f with
  | zero => intro n ds _ h; omega
  | succ f ih =>
    intro n ds h0 h
    simp only [Nat.toDigitsCore]
    split
    · rename_i hz
      exact ⟨n % 10, ds, by omega, by omega, rfl⟩
    · rename_i hz
      exact ih (n / 10) _ (by omega) (by omega)

theorem toDigits_head (k : Nat) (hk : 0 < k) :
    ∃ c tl, Nat.toDigits 10 k = c :: tl ∧ c ≠ '0' ∧ c ≠ '-' := by
  obtain ⟨d, tl, h0, h1, h⟩ := toDigitsCore_head (k + 1) k [] hk (by omega)
  refine ⟨Nat.digitChar d, tl, h, ?_, ?_⟩ <;> interval_cases d <;> decide

theorem readNumber_digits (neg : Bool) (ds : List Char) (x : Char) (rest : List Char)
    (hne : ds ≠ []) (hd : ∀ c ∈ ds, isDigit c = true)
    (hz : ds.head? = some '0' → ds.length ≤ 1) (hx : isDigit x = false) :
    readNumber ((if neg then ['-'] else []) ++ ds ++ x :: rest)
      = some (.num (String.mk ((if neg then ['-'] else []) ++ ds)), x :: rest) := by
  obtain ⟨d, tl, rfl⟩ := List.exists_cons_of_ne_nil hne
  have hdd : isDigit d = true := hd d (List.mem_cons_self _ _)
  have hdm : d ≠ '-' := by
    intro h; subst h; exact absurd hdd (by decide)
  have hsp := span_digits (d :: tl) x rest hd hx
  cases neg with
  | true =>
    simp only [readNumber, ↓reduceIte, List.cons_append, List.nil_append, List.head?_cons,
      decide_True, List.tail_cons] at hsp ⊢
    rw [hsp.1, hsp.2]
    rw [if_neg (by simp), if_neg (by
      intro h
      have := hz (by simpa using h.1)
      omega)]
  | false =>
    have hneg : (decide ((d :: (tl ++ x :: rest)).head? = some '-')) = false := by
      simp [hdm]
    simp only [readNumber, List.cons_append, List.nil_append, Bool.false_eq_true, ↓reduceIte,
      hneg] at hsp ⊢
    rw [hsp.1, hsp.2]
    rw [if_neg (by simp), if_neg (by
      intro h
      have := hz (by simpa using h.1)
      omega)]

theorem formatInt_chars (n : Int) :
    ∃ (neg : Bool) (ds : List Char), (formatInt n).toList = (if neg then ['-'] else []) ++ ds ∧
      ds ≠ [] ∧ (∀ c ∈ ds, isDigit c = true) ∧ (ds.head? = some '0' → ds.length ≤ 1) := by
  by_cases hn : n < 0
  · have hk : 0 < n.natAbs := by omega
    obtain ⟨c, tl, h, hc0, _⟩ := toDigits_head n.natAbs hk
    refine ⟨true, Nat.toDigits 10 n.natAbs, ?_, ?_, toDigits_isDigit _, ?_⟩
    · simp [formatInt, hn, Nat.repr, List.asString, String.data_append]
    · rw [h]; simp
    · rw [h]; intro hh; simp at hh; exact absurd hh hc0
  · obtain ⟨k, rfl⟩ := Int.eq_ofNat_of_zero_le (by omega : 0 ≤ n)
    refine ⟨false, Nat.toDigits 10 k, ?_, ?_, toDigits_isDigit _, ?_⟩
    · simp [formatInt, hn, Nat.repr, List.asString]
    · by_cases hk : 0 < k
      · obtain ⟨c, tl, h, _, _⟩ := toDigits_head k hk
        rw [h]; simp
      · have : k = 0 := by omega
        subst this
        decide
    · by_cases hk : 0 < k
      · obtain ⟨c, tl, h, hc0, _⟩ := toDigits_head k hk
        rw [h]; intro hh; simp at hh; exact absurd hh hc0
      · have : k = 0 := by omega
        subst this
        decide

/-- The decimal text of an `int`, followed by something that is not a digit,
reads back as the number with that literal. -/
theorem readNumber_formatInt (n : Int) (x : Char) (rest : List Char) (hx : isDigit x = false) :
    readNumber ((formatInt n).toList ++ x :: rest) = some (.num (formatInt n), x :: rest) := by
  obtain ⟨neg, ds, h, hne, hd, hz⟩ := formatInt_chars n
  rw [h, readNumber_digits neg ds x rest hne hd hz hx, ← h]
  rfl

theorem String_mk_toList (s : String) : String.mk s.toList = s := rfl

/-- The text of a field value, followed by something that is not a digit,
reads back as the value. -/
theorem readValue_render (v : EncValue) (x : Char) (rest : List Char)
    (hx : isDigit x = false) :
    readValue (v.render.toList ++ x :: rest) = some (v.toJSON, x :: rest) := by
  cases v with
  | str s =>
    show readValue ((Char.ofNat 34 :: (s.toList.flatMap escapeRune ++ [Char.ofNat 34]))
      ++ x :: rest) = _
    simp only [List.cons_append, List.append_assoc, List.singleton_append, readValue,
      ↓reduceIte, readString_escaped, EncValue.toJSON]
    rfl
  | int n =>
    obtain ⟨neg, ds, h, hne, hd, hz⟩ := formatInt_chars n
    obtain ⟨d, tl, rfl⟩ := List.exists_cons_of_ne_nil hne
    have hnum := readNumber_formatInt n x rest hx
    simp only [EncValue.render, EncValue.toJSON]
    have hq : ∀ c tl2, (formatInt n).toList ++ x :: rest = c :: tl2 → c ≠ Char.ofNat 34 := by
      intro c tl2 hh
      rw [h] at hh
      cases neg with
      | true =>
        simp only [↓reduceIte, List.cons_append, List.nil_append, List.cons.injEq] at hh
        rw [← hh.1]; decide
      | false =>
        simp only [Bool.false_eq_true, ↓reduceIte, List.nil_append, List.cons_append,
          List.cons.injEq] at hh
        rw [← hh.1]
        intro hc
        have := hd d (List.mem_cons_self _ _)
        rw [hc] at this
        exact absurd this (by decide)
    cases hl : (formatInt n).toList ++ x :: rest with
    | nil => simp at hl
    | cons c tl2 =>
      rw [hl] at hnum
      simp only [readValue, if_neg (hq c tl2 hl), hnum]

theorem renderMember_toList (m : String × EncValue) :
    (renderMember m).toList
      = Char.ofNat 34 :: (m.1.toList.flatMap escapeRune
          ++ Char.ofNat 34 :: ':' :: m.2.render.toList) := by
  simp [renderMember, encodeString, String.data_append]

theorem isDigit_comma : isDigit ',' = false := by decide

theorem isDigit_brace : isDigit (Char.ofNat 125) = false := by decide

theorem readMember_render (m : String × EncValue) (x : Char) (rest : List Char)
    (hx : isDigit x = false) :
    readMember ((renderMember m).toList ++ x :: rest) = some (readBack m, x :: rest) := by
  rw [renderMember_toList]
  simp only [List.cons_append, List.append_assoc, readMember, ↓reduceIte, readString_escaped,
    readValue_render m.2 x rest hx]
  rfl

theorem readMembers_render (ms : List (String × EncValue)) :
    ∀ (m : String × EncValue) (fuel : Nat) (rest : List Char), ms.length < fuel →
      readMembers fuel ((renderMember m).toList
          ++ (ms.flatMap (fun x => ',' :: (renderMember x).toList)
            ++ Char.ofNat 125 :: rest))
        = some ((m :: ms).map readBack, rest) := by
  induction ms with
  | nil =>
    intro m fuel rest hf
    cases fuel with
    | zero => simp at hf
    | succ f =>
      simp only [List.flatMap_nil, List.nil_append, readMembers,
        readMember_render m _ rest isDigit_brace]
      rfl
  | cons m2 ms ih =>
    intro m fuel rest hf
    cases fuel with
    | zero => simp at hf
    | succ f =>
      simp only [List.flatMap_cons, List.cons_append, List.append_assoc, readMembers,
        readMember_render m _ _ isDigit_comma, ↓reduceIte]
      rw [ih m2 f rest (by simpa using hf)]
      rfl

theorem intercalate_go_toList (sep : String) (xs : List String) :
    ∀ acc : String, (String.intercalate.go acc sep xs).toList
      = acc.toList ++ xs.flatMap (fun x => sep.toList ++ x.toList) := by
  induction xs with
  | nil => intro acc; simp [String.intercalate.go]
  | cons x rest ih =>
    intro acc
    have := ih (acc ++ sep ++ x)
    simp only [String.toList, String.data_append, List.append_assoc] at this ⊢
    simp only [String.intercalate.go, this, List.flatMap_cons, List.append_assoc]

theorem renderObject_toList (m : String × EncValue) (ms : List (String × EncValue)) :
    (renderObject (m :: ms)).toList
      = Char.ofNat 123 :: ((renderMember m).toList
          ++ (ms.flatMap (fun x => ',' :: (renderMember x).toList) ++ [Char.ofNat 125])) := by
  simp only [renderObject, List.map_cons, String.intercalate, String.toList, String.data_append,
    List.append_assoc]
  have := intercalate_go_toList "," (ms.map renderMember) (renderMember m)
  simp only [String.toList] at this
  rw [this]
  simp [List.flatMap_map]

theorem length_flatMap_members (ms : List (String × EncValue)) :
    ms.length ≤ (ms.flatMap (fun x => ',' :: (renderMember x).toList)).length := by
  induction ms with
  | nil => simp
  | cons m rest ih =>
    simp only [List.flatMap_cons, List.length_append, List.length_cons]
    omega

/-- The object text written for a list of members, read back from its bytes,
gives the members in order, each with its value. -/
theorem decodeDocument_renderObject (ms : List (String × EncValue)) :
    decodeDocument (bytesOf (renderObject ms)) = some (ms.map readBack) := by
  unfold decodeDocument
  rw [utf8Decode_bytesOf]
  cases ms with
  | nil => rfl
  | cons m rest =>
    rw [renderObject_toList]
    simp only [Option.some_bind, readObject, ↓reduceIte]
    have hne : (renderMember m).toList
        ++ (rest.flatMap (fun x => ',' :: (renderMember x).toList) ++ [Char.ofNat 125])
        ≠ [Char.ofNat 125] := by
      rw [renderMember_toList]
      simp only [List.cons_append, ne_eq, List.cons.injEq, not_and]
      intro h
      exact absurd h (by decide)
    rw [if_neg hne, readMembers_render rest m _ [] (by
      have := length_flatMap_members rest
      simp only [List.length_append, List.length_cons, List.length_nil]
      omega)]

theorem encodeString_sub : encodeString "sub" = "\"sub\"" := by decide

theorem encodeString_id : encodeString "id" = "\"id\"" := by decide

theorem encodeString_freq : encodeString "freq-ms" = "\"freq-ms\"" := by decide

/-- With `FreqMs = 0` the encoder writes the members `sub` and `id` and the
text `{"sub":<Sub as a JSON string>,"id":<ID as a JSON string>}`. -/
theorem marshal_zero_freq (r : SubRequest) (h : r.FreqMs = 0) :
    r.members = [("sub", .str r.Sub), ("id", .str r.ID)] ∧
    r.members.map Prod.fst = ["sub", "id"] ∧
    (∀ m ∈ r.members, m.1 ≠ "freq-ms") ∧
    jsonMarshal r = .ok (bytesOf
      ("\x7b\"sub\":" ++ encodeString r.Sub ++ ",\"id\":" ++ encodeString r.ID ++ "\x7d")) := by
  have hm : r.members = [("sub", .str r.Sub), ("id", .str r.ID)] := by
    simp [SubRequest.members, h]
  refine ⟨hm, by simp [hm], by simp [hm], ?_⟩
  unfold jsonMarshal
  rw [hm]
  simp only [renderObject, renderMember, String.intercalate,
    String.intercalate.go, EncValue.render, List.map, encodeString_sub, encodeString_id]
  congr 2
  apply String.ext
  simp [String.data_append]

/-- With `FreqMs = n > 0` the encoder writes the members `sub`, `id` and
`freq-ms` and the text
`{"sub":<Sub>,"id":<ID>,"freq-ms":<decimal digits of n>}`. -/
theorem marshal_positive_freq (r : SubRequest) (h : 0 < r.FreqMs) :
    r.members = [("sub", .str r.Sub), ("id", .str r.ID), ("freq-ms", .int r.FreqMs)] ∧
    jsonMarshal r = .ok (bytesOf
      ("\x7b\"sub\":" ++ encodeString r.Sub ++ ",\"id\":" ++ encodeString r.ID
        ++ ",\"freq-ms\":" ++ formatInt r.FreqMs ++ "\x7d")) ∧
    (r.FreqMs < 2 ^ 63 → parseInt64 (formatInt r.FreqMs) = some r.FreqMs) ∧
    subRequest = ⟨"market.btcusdt.kline.1min", "id1", 5000⟩ ∧
    jsonMarshal subRequest = .ok (bytesOf
      "\x7b\"sub\":\"market.btcusdt.kline.1min\",\"id\":\"id1\",\"freq-ms\":5000\x7d") := by
  have hne : r.FreqMs ≠ 0 := by omega
  have hm : r.members = [("sub", .str r.Sub), ("id", .str r.ID), ("freq-ms", .int r.FreqMs)] := by
    simp [SubRequest.members, hne]
  refine ⟨hm, ?_, fun hlt => parseInt64_formatInt _ (by omega) hlt, rfl,
    congrArg Except.ok (by decide)⟩
  unfold jsonMarshal
  rw [hm]
  simp only [renderObject, renderMember, String.intercalate,
    String.intercalate.go, EncValue.render, List.map, encodeString_sub, encodeString_id,
    encodeString_freq]
  congr 2
  apply String.ext
  simp [String.data_append]

/-- C4: for every `SubRequest` with `FreqMs = 0`, whatever `Sub` and `ID` are,
the bytes `json.Marshal` returns, decoded as UTF-8 and read as a JSON object,
are an object with exactly two members, `sub` holding the string `Sub` and
`id` holding the string `ID`: there is no `freq-ms` key. (The members the
encoder writes are `sub` and `id`, and the bytes are the text
`{"sub":<Sub as a JSON string>,"id":<ID as a JSON string>}`.) -/
theorem C4_zero_freq_is_omitted (r : SubRequest) (h : r.FreqMs = 0) :
    r.members = [("sub", .str r.Sub), ("id", .str r.ID)] ∧
    r.members.map Prod.fst = ["sub", "id"] ∧
    (∀ m ∈ r.members, m.1 ≠ "freq-ms") ∧
    jsonMarshal r = .ok (bytesOf
      ("\x7b\"sub\":" ++ encodeString r.Sub ++ ",\"id\":" ++ encodeString r.ID ++ "\x7d")) ∧
    ∃ data, jsonMarshal r = .ok data ∧
      decodeDocument data = some [("sub", .str r.Sub), ("id", .str r.ID)] := by
  obtain ⟨h1, h2, h3, h4⟩ := marshal_zero_freq r h
  refine ⟨h1, h2, h3, h4, bytesOf (renderObject r.members), rfl, ?_⟩
  rw [decodeDocument_renderObject, h1]
  rfl

/-- C4 at a `Sub` with a quote, a backslash, `<`, `>` and a line feed, and an
`ID` outside ASCII. -/
theorem C4_zero_freq_is_omitted_witness :
    (⟨"a\"b\\c<d>\n", "é", 0⟩ : SubRequest).FreqMs = 0 ∧
    ∃ data, jsonMarshal ⟨"a\"b\\c<d>\n", "é", 0⟩ = .ok data ∧
      decodeDocument data = some [("sub", .str "a\"b\\c<d>\n"), ("id", .str "é")] :=
  ⟨rfl, (C4_zero_freq_is_omitted ⟨"a\"b\\c<d>\n", "é", 0⟩ rfl).2.2.2.2⟩

/-- C5: for every `SubRequest` with `FreqMs = n > 0`, the bytes `json.Marshal`
returns, decoded as UTF-8 and read as a JSON object, are an object with
exactly three members: `sub` holding the string `Sub`, `id` holding the
string `ID`, and `freq-ms` (hyphenated) holding the number whose literal is
the decimal text of `n`, which reads back as the integer `n` for every `n` a
Go `int` can hold. The request built in `main` encodes to
`{"sub":"market.btcusdt.kline.1min","id":"id1","freq-ms":5000}`. -/
theorem C5_positive_freq_is_encoded (r : SubRequest) (h : 0 < r.FreqMs) :
    r.members = [("sub", .str r.Sub), ("id", .str r.ID), ("freq-ms", .int r.FreqMs)] ∧
    jsonMarshal r = .ok (bytesOf
      ("\x7b\"sub\":" ++ encodeString r.Sub ++ ",\"id\":" ++ encodeString r.ID
        ++ ",\"freq-ms\":" ++ formatInt r.FreqMs ++ "\x7d")) ∧
    (∃ data, jsonMarshal r = .ok data ∧
      decodeDocument data
        = some [("sub", .str r.Sub), ("id", .str r.ID), ("freq-ms", .num (formatInt r.FreqMs))]) ∧
    (r.FreqMs < 2 ^ 63 → parseInt64 (formatInt r.FreqMs) = some r.FreqMs) ∧
    subRequest = ⟨"market.btcusdt.kline.1min", "id1", 5000⟩ ∧
    jsonMarshal subRequest = .ok (bytesOf
      "\x7b\"sub\":\"market.btcusdt.kline.1min\",\"id\":\"id1\",\"freq-ms\":5000\x7d") := by
  obtain ⟨h1, h2, h3, h4, h5⟩ := marshal_positive_freq r h
  refine ⟨h1, h2, ⟨bytesOf (renderObject r.members), rfl, ?_⟩, h3, h4, h5⟩
  rw [decodeDocument_renderObject, h1]
  rfl

/-- C5 at `FreqMs = 7`, a `Sub` with a quote, a backslash, `<`, `>` and a line
feed, and an `ID` outside ASCII. -/
theorem C5_positive_freq_is_encoded_witness :
    0 < (⟨"a\"b\\c<d>\n", "é", 7⟩ : SubRequest).FreqMs ∧
    (∃ data, jsonMarshal ⟨"a\"b\\c<d>\n", "é", 7⟩ = .ok data ∧
      decodeDocument data
        = some [("sub", .str "a\"b\\c<d>\n"), ("id", .str "é"), ("freq-ms", .num "7")]) ∧
    parseInt64 "7" = some 7 := by
  have h := C5_positive_freq_is_encoded ⟨"a\"b\\c<d>\n", "é", 7⟩ (by decide)
  exact ⟨by decide, h.2.2.1, h.2.2.2.1 (by decide)⟩

/-! ## What the frames after the subscribe write carry -/

theorem storeInt_err (f : String) (a b : Int) (v : JSON) :
    (storeInt f a v).2 = (storeInt f b v).2 := by
  cases v <;> simp only [storeInt]
  split <;> rfl

theorem storeFloat_err (L : Lib) (f : String) (a b : Float64) (v : JSON) :
    (storeFloat L f a v).2 = (storeFloat L f b v).2 := by
  cases v <;> simp only [storeFloat]
  split <;> rfl

theorem storeString_err (f : String) (a b : String) (v : JSON) :
    (storeString f a v).2 = (storeString f b v).2 := by
  cases v <;> simp only [storeString]

theorem tick_store_err (L : Lib) (a b : Tick) (k : String) (v : JSON) :
    (Tick.store L a k v).2 = (Tick.store L b k v).2 := by
  unfold Tick.store
  cases findField Tick.names k with
  | none => rfl
  | some name =>
    simp only
    split_ifs
    · exact storeInt_err _ _ _ _
    · exact storeFloat_err _ _ _ _ _
    · exact storeFloat_err _ _ _ _ _
    · exact storeFloat_err _ _ _ _ _
    · exact storeFloat_err _ _ _ _ _
    · exact storeFloat_err _ _ _ _ _
    · exact storeFloat_err _ _ _ _ _
    · exact storeInt_err _ _ _ _

theorem tick_decode_err (L : Lib) (ms : List (String × JSON)) :
    ∀ (a b : Tick) (e : Option UnmarshalError),
      (Tick.decode L ms a e).2 = (Tick.decode L ms b e).2 := by
  induction ms with
  | nil => intro a b e; rfl
  | cons kv rest ih =>
    intro a b e
    obtain ⟨k, v⟩ := kv
    simp only [Tick.decode]
    rw [tick_store_err L a b k v]
    exact ih _ _ _

theorem storeTick_err (L : Lib) (a b : Tick) (v : JSON) :
    (storeTick L a v).2 = (storeTick L b v).2 := by
  cases v <;> simp only [storeTick]
  exact tick_decode_err L _ a b none

theorem envelope_store_err (L : Lib) (a b : SubResponse) (k : String) (v : JSON) :
    (SubResponse.store L a k v).2 = (SubResponse.store L b k v).2 := by
  unfold SubResponse.store
  cases findField SubResponse.names k with
  | none => rfl
  | some name =>
    simp only
    split_ifs
    · exact storeString_err _ _ _ _
    · exact storeInt_err _ _ _ _
    · exact storeTick_err _ _ _ _

theorem envelope_decode_err (L : Lib) (ms : List (String × JSON)) :
    ∀ (a b : SubResponse) (e : Option UnmarshalError),
      (SubResponse.decode L ms a e).2 = (SubResponse.decode L ms b e).2 := by
  induction ms with
  | nil => intro a b e; rfl
  | cons kv rest ih =>
    intro a b e
    obtain ⟨k, v⟩ := kv
    simp only [SubResponse.decode]
    rw [envelope_store_err L a b k v]
    exact ih _ _ _

theorem storeDocument_err (L : Lib) (doc : JSON) (a b : SubResponse) :
    (storeDocument L doc a).2 = (storeDocument L doc b).2 := by
  cases doc <;> simp only [storeDocument]
  exact envelope_decode_err L _ a b none

/-- Whether `json.Unmarshal` returns an error, and which, does not depend on
what `subRes` held. -/
theorem jsonUnmarshal_err (L : Lib) (data : Bytes) (a b : SubResponse) :
    (jsonUnmarshal L data a).2 = (jsonUnmarshal L data b).2 := by
  unfold jsonUnmarshal
  cases L.jsonScan data with
  | error msg => rfl
  | ok doc => exact storeDocument_err L doc a b

/-- Members none of whose keys selects `tick` leave the `Tick` of the
envelope as it was. -/
theorem SubResponse.decode_tick (L : Lib) (ms : List (String × JSON))
    (hno : ∀ kv ∈ ms, findField SubResponse.names kv.1 ≠ some "tick") :
    ∀ (r : SubResponse) (e : Option UnmarshalError),
      (SubResponse.decode L ms r e).1.Tick = r.Tick := by
  induction ms with
  | nil => intro r e; rfl
  | cons kv rest ih =>
    intro r e
    obtain ⟨k, v⟩ := kv
    simp only [SubResponse.decode]
    rw [ih (fun kv h => hno kv (List.mem_cons_of_mem _ h))]
    have hk := hno (k, v) (List.mem_cons_self _ _)
    simp only at hk
    unfold SubResponse.store
    cases hf : findField SubResponse.names k with
    | none => rfl
    | some name =>
      simp only
      have hmem : name ∈ SubResponse.names := by
        unfold findField at hf
        split at hf
        · rename_i n hn
          simp only [Option.some.injEq] at hf
          subst hf
          exact List.mem_of_find?_eq_some hn
        · exact List.mem_of_find?_eq_some hf
      have hne : name ≠ "tick" := by
        intro h; apply hk; rw [hf, h]
      simp only [SubResponse.names, List.mem_cons, List.mem_singleton, List.not_mem_nil,
        or_false] at hmem
      rcases hmem with rfl | rfl | rfl
      · simp
      · simp
      · exact absurd rfl hne

theorem gzipCompress_err (L : Lib) (m : Bytes) (e : String)
    (h : (gzipCompress L m).2 = some e) : (gzipCompress L m).1 = [] := by
  unfold gzipCompress at h ⊢
  generalize L.gzipNewReader m = g at h ⊢
  cases g with
  | error err => rfl
  | ok reader =>
    simp only at h ⊢
    generalize L.ioutilReadAll reader = g2 at h ⊢
    cases g2 with
    | error err => rfl
    | ok msg => simp at h

theorem step_read_msg (L : Lib) (s : State) (m : Bytes) (hr : s.reader = .running)
    (halive : ∀ c, s.main ≠ .returned c) :
    step L s (.read (.msg m))
      = some ({ s with subRes := (readerBody L s.subRes m).1 },
          .read (.msg m) :: (readerBody L s.subRes m).2) := by
  obtain ⟨mn, r, b⟩ := s
  simp only at hr halive
  subst hr
  cases mn <;> simp [step] at halive ⊢

theorem step_read_err (L : Lib) (s : State) (e : String) (hr : s.reader = .running)
    (halive : ∀ c, s.main ≠ .returned c) :
    step L s (.read (.err e))
      = some ({ s with reader := .exited },
          [.read (.err e), .log (.err "read:" e), .closeDone]) := by
  obtain ⟨mn, r, b⟩ := s
  simp only at hr halive
  subst hr
  cases mn <;> simp [step] at halive ⊢

/-- C3, as the code has it: the reader is running and reads a frame that
fails to decode, because inflation fails or because the inflated payload
does not decode as the envelope (the JSON scanner rejecting the empty input,
which is what is left after a failed inflation). Then the reader does
exactly this: after the read it prints the gzip error when inflation failed
and prints nothing at all when only the decode failed; it logs no `recv:`
record; it stays in its loop, and the next `ReadMessage` is made. What
`subRes` holds afterwards is what `json.Unmarshal` left there: it is
unchanged when inflation failed and when the payload is not valid JSON, and
after a payload that is valid JSON but fails with a type error it holds the
members of that payload that did decode. -/
theorem C3_decode_failure_logs_gzip_errors_only (L : Lib) (s : State) (m : Bytes)
    (hr : s.reader = .running) (halive : ∀ c, s.main ≠ .returned c)
    (hnil : ∀ d, L.jsonScan [] ≠ .ok d)
    (hfail : (gzipCompress L m).2 ≠ none ∨
      (jsonUnmarshal L (gzipCompress L m).1 s.subRes).2 ≠ none) :
    ∃ s1, step L s (.read (.msg m)) = some (s1,
        .read (.msg m) :: (match (gzipCompress L m).2 with
          | some e => [.log (.err "" e)]
          | none => [])) ∧
      s1.reader = .running ∧ s1.main = s.main ∧
      s1.subRes = (jsonUnmarshal L (gzipCompress L m).1 s.subRes).1 ∧
      ((gzipCompress L m).2 ≠ none → s1.subRes = s.subRes) ∧
      ((∀ d, L.jsonScan (gzipCompress L m).1 ≠ .ok d) → s1.subRes = s.subRes) ∧
      (∀ m2, (step L s1 (.read (.msg m2))).isSome = true) ∧
      (∀ e, (step L s1 (.read (.err e))).isSome = true) := by
  have hu : (jsonUnmarshal L (gzipCompress L m).1 s.subRes).2 ≠ none := by
    rcases hfail with hg | hu
    · cases hz : (gzipCompress L m).2 with
      | none => exact absurd hz hg
      | some e =>
        rw [gzipCompress_err L m e hz]
        unfold jsonUnmarshal
        cases hs : L.jsonScan [] with
        | error msg => simp
        | ok d => exact absurd hs (hnil d)
    · exact hu
  have hsyn : (∀ d, L.jsonScan (gzipCompress L m).1 ≠ .ok d) →
      (jsonUnmarshal L (gzipCompress L m).1 s.subRes).1 = s.subRes := by
    intro hno
    unfold jsonUnmarshal
    cases hs : L.jsonScan (gzipCompress L m).1 with
    | error msg => rfl
    | ok d => exact absurd hs (hno d)
  refine ⟨{ s with subRes := (readerBody L s.subRes m).1 }, ?_, hr, rfl, rfl, ?_, hsyn, ?_, ?_⟩
  · rw [step_read_msg L s m hr halive]
    congr 2
    unfold readerBody
    simp only
    cases hx : (jsonUnmarshal L (gzipCompress L m).1 s.subRes).2 with
    | none => exact absurd hx hu
    | some e =>
      simp only [List.append_nil]
  · intro hg
    cases hz : (gzipCompress L m).2 with
    | none => exact absurd hz hg
    | some e =>
      apply hsyn
      rw [gzipCompress_err L m e hz]
      exact hnil
  · intro m2
    rw [step_read_msg L { s with subRes := (readerBody L s.subRes m).1 } m2 hr halive]; rfl
  · intro e
    rw [step_read_err L { s with subRes := (readerBody L s.subRes m).1 } e hr halive]; rfl

theorem Step.keeps_reader {L : Lib} {s s1 : State} {c : Choice} {ev : List Event}
    (h : Step L s c s1 ev) (hc : ∀ r, c ≠ .read r) (hr : s.reader = .running) :
    s1.reader = .running ∧ Event.closeDone ∉ ev := by
  cases h with
  | readErr e hm hr2 => exact absurd rfl (hc _)
  | readClosed code e replied hm hg hr2 => exact absurd rfl (hc _)
  | readMsg m hm hr2 => exact absurd rfl (hc _)
  | subscribe err hm =>
    refine ⟨hr, ?_⟩
    cases err <;> simp [subscribeEvents, jsonMarshal]
  | spawn hm => exact ⟨rfl, by simp⟩
  | dialOk hm | dialFail e hm | startTicker hm | selDone hm hr2
  | selTick t hm | selInterrupt hm | closeOk hm | closeFail e hm | graceDone hm hr2
  | graceTimeout hm | heartbeatOk t hm | heartbeatFail t e hm =>
    exact ⟨hr, by simp [deferred]⟩

theorem run_keeps_reader (L : Lib) (mid : List Choice) :
    ∀ (s s1 : State) (tr : List Event), (∀ c ∈ mid, ∀ r, c ≠ .read r) →
      s.reader = .running → run L s mid = some (s1, tr) →
      s1.reader = .running ∧ Event.closeDone ∉ tr := by
  induction mid with
  | nil =>
    intro s s1 tr _ hr h
    simp only [run, Option.some.injEq, Prod.mk.injEq] at h
    obtain ⟨rfl, rfl⟩ := h
    exact ⟨hr, by simp⟩
  | cons c cs ih =>
    intro s s1 tr hmid hr h
    simp only [run] at h
    cases hc : step L s c with
    | none => simp [hc] at h
    | some r =>
      obtain ⟨s0, ev⟩ := r
      simp only [hc] at h
      cases hrun : run L s0 cs with
      | none => simp [hrun] at h
      | some r2 =>
        obtain ⟨s3, tr3⟩ := r2
        simp only [hrun, Option.some.injEq, Prod.mk.injEq] at h
        obtain ⟨rfl, rfl⟩ := h
        have h1 := (step_graph L s s0 c ev hc).keeps_reader
          (hmid c (List.mem_cons_self _ _)) hr
        have h2 := ih s0 s3 tr3 (fun c h => hmid c (List.mem_cons_of_mem _ h)) h1.1 hrun
        exact ⟨h2.1, by
          intro hm
          rcases List.mem_append.1 hm with hx | hx
          · exact h1.2 hx
          · exact h2.2 hx⟩

theorem readerBody_wellFormed (L : Lib) (b : SubResponse) (g : Bytes) (hg : WellFormed L g) :
    (readerBody L b g).2 = [.log (.recv (jsonUnmarshal L (gzipCompress L g).1 b).1)] ∧
    (readerBody L b g).1 = (jsonUnmarshal L (gzipCompress L g).1 b).1 := by
  obtain ⟨h1, h2⟩ := hg
  rw [jsonUnmarshal_err L _ SubResponse.zero b] at h2
  simp only [readerBody, h1, h2, List.nil_append, and_self]

/-- C7: the reader is running and reads a malformed frame (not gzip, or a
payload that does not decode); the supervisor then does whatever it does
(any steps that are not reads) without returning. Then the reader is still
running, `done` has not been closed anywhere in between, and the next
`ReadMessage` returning a well-formed frame makes the reader log a `recv:`
record for it, holding the envelope decoded from that frame into `subRes`. -/
theorem C7_malformed_frame_does_not_stop_the_reader (L : Lib) (s s1 : State) (m g : Bytes)
    (mid : List Choice) (tr1 : List Event)
    (hr : s.reader = .running) (_hm : Malformed L m) (hg : WellFormed L g)
    (hmid : ∀ c ∈ mid, ∀ r, c ≠ .read r)
    (hrun : run L s (.read (.msg m) :: mid) = some (s1, tr1))
    (halive : ∀ c, s1.main ≠ .returned c) :
    s1.reader = .running ∧ Event.closeDone ∉ tr1 ∧
    step L s1 (.read (.msg g))
      = some ({ s1 with subRes := (jsonUnmarshal L (gzipCompress L g).1 s1.subRes).1 },
          [.read (.msg g), .log (.recv (jsonUnmarshal L (gzipCompress L g).1 s1.subRes).1)]) := by
  simp only [run] at hrun
  cases hc : step L s (.read (.msg m)) with
  | none => simp [hc] at hrun
  | some r =>
    obtain ⟨s0, ev⟩ := r
    simp only [hc] at hrun
    cases hrun2 : run L s0 mid with
    | none => simp [hrun2] at hrun
    | some r2 =>
      obtain ⟨s3, tr3⟩ := r2
      simp only [hrun2, Option.some.injEq, Prod.mk.injEq] at hrun
      obtain ⟨rfl, rfl⟩ := hrun
      have hst := step_graph L s s0 _ ev hc
      have h0 : s0.reader = .running ∧ Event.closeDone ∉ ev := by
        cases hst with
        | readMsg _ hm2 hr2 =>
          refine ⟨hr, ?_⟩
          intro hx
          rcases List.mem_cons.1 hx with hx | hx
          · cases hx
          · rcases readerBody_events L _ m _ hx with ⟨x, hx⟩ | ⟨v, hx⟩ <;> cases hx
      have h1 := run_keeps_reader L mid s0 s3 tr3 hmid h0.1 hrun2
      refine ⟨h1.1, ?_, ?_⟩
      · intro hx
        rcases List.mem_append.1 hx with hx | hx
        · exact h0.2 hx
        · exact h1.2 hx
      · rw [step_read_msg L s3 g h1.1 halive]
        obtain ⟨e1, e2⟩ := readerBody_wellFormed L s3.subRes g hg
        rw [e1, e2]

theorem findField_mem (names : List String) (k name : String)
    (h : findField names k = some name) : name ∈ names := by
  unfold findField at h
  split at h
  · rename_i n hn
    simp only [Option.some.injEq] at h
    subst h
    exact List.mem_of_find?_eq_some hn
  · exact List.mem_of_find?_eq_some h

theorem storeInt_cases (f : String) (a b : Int) (v : JSON) (h : (storeInt f a v).2 = none) :
    (v = .null ∧ (storeInt f a v).1 = a ∧ (storeInt f b v).1 = b) ∨
    ((∃ lit, v = .num lit) ∧ (storeInt f a v).1 = (storeInt f b v).1) := by
  cases v with
  | null => exact Or.inl ⟨rfl, rfl, rfl⟩
  | num lit =>
    right
    refine ⟨⟨lit, rfl⟩, ?_⟩
    simp only [storeInt] at h ⊢
    cases hp : parseInt64 lit with
    | none => simp [hp] at h
    | some n => rfl
  | bool x => simp [storeInt] at h
  | str x => simp [storeInt] at h
  | arr x => simp [storeInt] at h
  | obj x => simp [storeInt] at h

theorem storeFloat_cases (L : Lib) (f : String) (a b : Float64) (v : JSON)
    (h : (storeFloat L f a v).2 = none) :
    (v = .null ∧ (storeFloat L f a v).1 = a ∧ (storeFloat L f b v).1 = b) ∨
    ((∃ lit, v = .num lit) ∧ (storeFloat L f a v).1 = (storeFloat L f b v).1) := by
  cases v with
  | null => exact Or.inl ⟨rfl, rfl, rfl⟩
  | num lit =>
    right
    refine ⟨⟨lit, rfl⟩, ?_⟩
    simp only [storeFloat] at h ⊢
    cases hp : L.parseFloat lit with
    | none => simp [hp] at h
    | some n => rfl
  | bool x => simp [storeFloat] at h
  | str x => simp [storeFloat] at h
  | arr x => simp [storeFloat] at h
  | obj x => simp [storeFloat] at h

theorem Tick.assignedBy_of (k name : String) (v : JSON)
    (hf : findField Tick.names k = some name) (f : String) (h : f ∈ Tick.assignedBy (k, v)) :
    f = name ∧ ∃ lit, v = .num lit := by
  unfold Tick.assignedBy at h
  cases v <;> simp [hf] at h
  exact ⟨h, _, rfl⟩

theorem Tick.assignedBy_num (k name lit : String)
    (hf : findField Tick.names k = some name) : name ∈ Tick.assignedBy (k, .num lit) := by
  simp [Tick.assignedBy, hf]

theorem tick_store_agree (L : Lib) (P : String → Prop) (a b : Tick) (k : String) (v : JSON)
    (hab : Tick.agree P a b) (herr : (Tick.store L a k v).2 = none) :
    Tick.agree (fun f => P f ∨ f ∈ Tick.assignedBy (k, v))
      (Tick.store L a k v).1 (Tick.store L b k v).1 := by
  cases hf : findField Tick.names k with
  | none =>
    have hnot : ∀ f, f ∉ Tick.assignedBy (k, v) := by
      intro f
      unfold Tick.assignedBy
      cases v <;> simp [hf]
    simp only [Tick.store, hf]
    simpa [Tick.agree, hnot] using hab
  | some name =>
    have hmem := findField_mem _ _ _ hf
    have hin := Tick.assignedBy_of k name v hf
    obtain ⟨h1, h2, h3, h4, h5, h6, h7, h8⟩ := hab
    simp only [Tick.names, List.mem_cons, List.mem_singleton, List.not_mem_nil,
      or_false] at hmem
    rcases hmem with rfl | rfl | rfl | rfl | rfl | rfl | rfl | rfl
    · simp only [Tick.store, hf] at herr ⊢
      simp only [↓reduceIte, String.reduceEq] at herr ⊢
      rcases storeInt_cases _ a.ID b.ID v herr with ⟨rfl, ea, eb⟩ | ⟨⟨lit, rfl⟩, e⟩
      · rw [ea, eb]
        refine ⟨?_, ?_, ?_, ?_, ?_, ?_, ?_, ?_⟩ <;> intro hp <;> rcases hp with hp | hp <;>
          first
            | exact h1 hp | exact h2 hp | exact h3 hp | exact h4 hp | exact h5 hp
            | exact h6 hp | exact h7 hp | exact h8 hp
            | (obtain ⟨_, _, hc⟩ := hin _ hp; cases hc)
      · rw [e]
        refine ⟨?_, ?_, ?_, ?_, ?_, ?_, ?_, ?_⟩ <;> intro hp <;> rcases hp with hp | hp <;>
          first
            | rfl
            | exact h1 hp | exact h2 hp | exact h3 hp | exact h4 hp | exact h5 hp
            | exact h6 hp | exact h7 hp | exact h8 hp
            | exact absurd (hin _ hp).1 (by decide)
    · simp only [Tick.store, hf] at herr ⊢
      simp only [↓reduceIte, String.reduceEq] at herr ⊢
      rcases storeFloat_cases L _ a.Open b.Open v herr with ⟨rfl, ea, eb⟩ | ⟨⟨lit, rfl⟩, e⟩
      · rw [ea, eb]
        refine ⟨?_, ?_, ?_, ?_, ?_, ?_, ?_, ?_⟩ <;> intro hp <;> rcases hp with hp | hp <;>
          first
            | exact h1 hp | exact h2 hp | exact h3 hp | exact h4 hp | exact h5 hp
            | exact h6 hp | exact h7 hp | exact h8 hp
            | (obtain ⟨_, _, hc⟩ := hin _ hp; cases hc)
      · rw [e]
        refine ⟨?_, ?_, ?_, ?_, ?_, ?_, ?_, ?_⟩ <;> intro hp <;> rcases hp with hp | hp <;>
          first
            | rfl
            | exact h1 hp | exact h2 hp | exact h3 hp | exact h4 hp | exact h5 hp
            | exact h6 hp | exact h7 hp | exact h8 hp
            | exact absurd (hin _ hp).1 (by decide)
    · simp only [Tick.store, hf] at herr ⊢
      simp only [↓reduceIte, String.reduceEq] at herr ⊢
      rcases storeFloat_cases L _ a.Close b.Close v herr with ⟨rfl, ea, eb⟩ | ⟨⟨lit, rfl⟩, e⟩
      · rw [ea, eb]
        refine ⟨?_, ?_, ?_, ?_, ?_, ?_, ?_, ?_⟩ <;> intro hp <;> rcases hp with hp | hp <;>
          first
            | exact h1 hp | exact h2 hp | exact h3 hp | exact h4 hp | exact h5 hp
            | exact h6 hp | exact h7 hp | exact h8 hp
            | (obtain ⟨_, _, hc⟩ := hin _ hp; cases hc)
      · rw [e]
        refine ⟨?_, ?_, ?_, ?_, ?_, ?_, ?_, ?_⟩ <;> intro hp <;> rcases hp with hp | hp <;>
          first
            | rfl
            | exact h1 hp | exact h2 hp | exact h3 hp | exact h4 hp | exact h5 hp
            | exact h6 hp | exact h7 hp | exact h8 hp
            | exact absurd (hin _ hp).1 (by decide)
    · simp only [Tick.store, hf] at herr ⊢
      simp only [↓reduceIte, String.reduceEq] at herr ⊢
      rcases storeFloat_cases L _ a.Low b.Low v herr with ⟨rfl, ea, eb⟩ | ⟨⟨lit, rfl⟩, e⟩
      · rw [ea, eb]
        refine ⟨?_, ?_, ?_, ?_, ?_, ?_, ?_, ?_⟩ <;> intro hp <;> rcases hp with hp | hp <;>
          first
            | exact h1 hp | exact h2 hp | exact h3 hp | exact h4 hp | exact h5 hp
            | exact h6 hp | exact h7 hp | exact h8 hp
            | (obtain ⟨_, _, hc⟩ := hin _ hp; cases hc)
      · rw [e]
        refine ⟨?_, ?_, ?_, ?_, ?_, ?_, ?_, ?_⟩ <;> intro hp <;> rcases hp with hp | hp <;>
          first
            | rfl
            | exact h1 hp | exact h2 hp | exact h3 hp | exact h4 hp | exact h5 hp
            | exact h6 hp | exact h7 hp | exact h8 hp
            | exact absurd (hin _ hp).1 (by decide)
    · simp only [Tick.store, hf] at herr ⊢
      simp only [↓reduceIte, String.reduceEq] at herr ⊢
      rcases storeFloat_cases L _ a.High b.High v herr with ⟨rfl, ea, eb⟩ | ⟨⟨lit, rfl⟩, e⟩
      · rw [ea, eb]
        refine ⟨?_, ?_, ?_, ?_, ?_, ?_, ?_, ?_⟩ <;> intro hp <;> rcases hp with hp | hp <;>
          first
            | exact h1 hp | exact h2 hp | exact h3 hp | exact h4 hp | exact h5 hp
            | exact h6 hp | exact h7 hp | exact h8 hp
            | (obtain ⟨_, _, hc⟩ := hin _ hp; cases hc)
      · rw [e]
        refine ⟨?_, ?_, ?_, ?_, ?_, ?_, ?_, ?_⟩ <;> intro hp <;> rcases hp with hp | hp <;>
          first
            | rfl
            | exact h1 hp | exact h2 hp | exact h3 hp | exact h4 hp | exact h5 hp
            | exact h6 hp | exact h7 hp | exact h8 hp
            | exact absurd (hin _ hp).1 (by decide)
    · simp only [Tick.store, hf] at herr ⊢
      simp only [↓reduceIte, String.reduceEq] at herr ⊢
      rcases storeFloat_cases L _ a.Amount b.Amount v herr with ⟨rfl, ea, eb⟩ | ⟨⟨lit, rfl⟩, e⟩
      · rw [ea, eb]
        refine ⟨?_, ?_, ?_, ?_, ?_, ?_, ?_, ?_⟩ <;> intro hp <;> rcases hp with hp | hp <;>
          first
            | exact h1 hp | exact h2 hp | exact h3 hp | exact h4 hp | exact h5 hp
            | exact h6 hp | exact h7 hp | exact h8 hp
            | (obtain ⟨_, _, hc⟩ := hin _ hp; cases hc)
      · rw [e]
        refine ⟨?_, ?_, ?_, ?_, ?_, ?_, ?_, ?_⟩ <;> intro hp <;> rcases hp with hp | hp <;>
          first
            | rfl
            | exact h1 hp | exact h2 hp | exact h3 hp | exact h4 hp | exact h5 hp
            | exact h6 hp | exact h7 hp | exact h8 hp
            | exact absurd (hin _ hp).1 (by decide)
    · simp only [Tick.store, hf] at herr ⊢
      simp only [↓reduceIte, String.reduceEq] at herr ⊢
      rcases storeFloat_cases L _ a.Volume b.Volume v herr with ⟨rfl, ea, eb⟩ | ⟨⟨lit, rfl⟩, e⟩
      · rw [ea, eb]
        refine ⟨?_, ?_, ?_, ?_, ?_, ?_, ?_, ?_⟩ <;> intro hp <;> rcases hp with hp | hp <;>
          first
            | exact h1 hp | exact h2 hp | exact h3 hp | exact h4 hp | exact h5 hp
            | exact h6 hp | exact h7 hp | exact h8 hp
            | (obtain ⟨_, _, hc⟩ := hin _ hp; cases hc)
      · rw [e]
        refine ⟨?_, ?_, ?_, ?_, ?_, ?_, ?_, ?_⟩ <;> intro hp <;> rcases hp with hp | hp <;>
          first
            | rfl
            | exact h1 hp | exact h2 hp | exact h3 hp | exact h4 hp | exact h5 hp
            | exact h6 hp | exact h7 hp | exact h8 hp
            | exact absurd (hin _ hp).1 (by decide)
    · simp only [Tick.store, hf] at herr ⊢
      simp only [↓reduceIte, String.reduceEq] at herr ⊢
      rcases storeInt_cases _ a.Count b.Count v herr with ⟨rfl, ea, eb⟩ | ⟨⟨lit, rfl⟩, e⟩
      · rw [ea, eb]
        refine ⟨?_, ?_, ?_, ?_, ?_, ?_, ?_, ?_⟩ <;> intro hp <;> rcases hp with hp | hp <;>
          first
            | exact h1 hp | exact h2 hp | exact h3 hp | exact h4 hp | exact h5 hp
            | exact h6 hp | exact h7 hp | exact h8 hp
            | (obtain ⟨_, _, hc⟩ := hin _ hp; cases hc)
      · rw [e]
        refine ⟨?_, ?_, ?_, ?_, ?_, ?_, ?_, ?_⟩ <;> intro hp <;> rcases hp with hp | hp <;>
          first
            | rfl
            | exact h1 hp | exact h2 hp | exact h3 hp | exact h4 hp | exact h5 hp
            | exact h6 hp | exact h7 hp | exact h8 hp
            | exact absurd (hin _ hp).1 (by decide)

theorem Tick.agree_of_imp {P Q : String → Prop} {a b : Tick} (h : ∀ f, Q f → P f)
    (hab : Tick.agree P a b) : Tick.agree Q a b := by
  obtain ⟨h1, h2, h3, h4, h5, h6, h7, h8⟩ := hab
  exact ⟨fun q => h1 (h _ q), fun q => h2 (h _ q), fun q => h3 (h _ q), fun q => h4 (h _ q),
    fun q => h5 (h _ q), fun q => h6 (h _ q), fun q => h7 (h _ q), fun q => h8 (h _ q)⟩

theorem firstError_none (e x : Option UnmarshalError) (h : firstError e x = none) :
    e = none ∧ x = none := by
  cases e with
  | none => exact ⟨rfl, h⟩
  | some y => simp [firstError] at h

theorem tick_decode_none (L : Lib) (ms : List (String × JSON)) :
    ∀ (a : Tick) (e : Option UnmarshalError), (Tick.decode L ms a e).2 = none → e = none := by
  induction ms with
  | nil => intro a e h; exact h
  | cons kv rest ih =>
    intro a e h
    obtain ⟨k, v⟩ := kv
    simp only [Tick.decode] at h
    exact (firstError_none _ _ (ih _ _ h)).1

theorem tick_decode_agree (L : Lib) (ms : List (String × JSON)) :
    ∀ (P : String → Prop) (a b : Tick) (e : Option UnmarshalError), Tick.agree P a b →
      (Tick.decode L ms a e).2 = none →
      Tick.agree (fun f => P f ∨ f ∈ Tick.assigned ms)
        (Tick.decode L ms a e).1 (Tick.decode L ms b e).1 := by
  induction ms with
  | nil =>
    intro P a b e hab _
    exact Tick.agree_of_imp (fun f hq => by simpa [Tick.assigned] using hq) hab
  | cons kv rest ih =>
    intro P a b e hab herr
    obtain ⟨k, v⟩ := kv
    simp only [Tick.decode] at herr ⊢
    have hs := (firstError_none _ _ (tick_decode_none L rest _ _ herr)).2
    have h1 := tick_store_agree L P a b k v hab hs
    rw [← tick_store_err L a b k v]
    have h2 := ih _ _ _ (firstError e (Tick.store L a k v).2) h1 herr
    refine Tick.agree_of_imp ?_ h2
    intro f hq
    simp only [Tick.assigned, List.flatMap_cons, List.mem_append] at hq ⊢
    tauto

theorem storeString_cases (f : String) (a b : String) (v : JSON)
    (h : (storeString f a v).2 = none) :
    (v = .null ∧ (storeString f a v).1 = a ∧ (storeString f b v).1 = b) ∨
    ((∃ x, v = .str x) ∧ (storeString f a v).1 = (storeString f b v).1) := by
  cases v with
  | null => exact Or.inl ⟨rfl, rfl, rfl⟩
  | str x => exact Or.inr ⟨⟨x, rfl⟩, rfl⟩
  | bool x => simp [storeString] at h
  | num x => simp [storeString] at h
  | arr x => simp [storeString] at h
  | obj x => simp [storeString] at h

theorem envelope_store_agree (L : Lib) (pch pts : Prop) (PT : String → Prop)
    (a b : SubResponse) (k : String) (v : JSON)
    (hab : SubResponse.agree pch pts PT a b) (herr : (SubResponse.store L a k v).2 = none) :
    SubResponse.agree (pch ∨ assignsCh (k, v) = true) (pts ∨ assignsTs (k, v) = true)
      (fun f => PT f ∨ f ∈ tickAssignedBy (k, v))
      (SubResponse.store L a k v).1 (SubResponse.store L b k v).1 := by
  obtain ⟨h1, h2, h3⟩ := hab
  cases hf : findField SubResponse.names k with
  | none =>
    simp only [SubResponse.store, hf]
    have e1 : assignsCh (k, v) = false := by cases v <;> simp [assignsCh, hf]
    have e2 : assignsTs (k, v) = false := by cases v <;> simp [assignsTs, hf]
    have e3 : tickAssignedBy (k, v) = [] := by cases v <;> simp [tickAssignedBy, hf]
    refine ⟨?_, ?_, Tick.agree_of_imp ?_ h3⟩
    · simpa [e1] using h1
    · simpa [e2] using h2
    · intro f hq; simpa [e3] using hq
  | some name =>
    have hmem := findField_mem _ _ _ hf
    simp only [SubResponse.names, List.mem_cons, List.mem_singleton, List.not_mem_nil,
      or_false] at hmem
    rcases hmem with rfl | rfl | rfl
    · simp only [SubResponse.store, hf] at herr ⊢
      simp only [↓reduceIte, String.reduceEq] at herr ⊢
      have e2 : assignsTs (k, v) = false := by cases v <;> simp [assignsTs, hf]
      have e3 : tickAssignedBy (k, v) = [] := by cases v <;> simp [tickAssignedBy, hf]
      refine ⟨?_, by simpa [e2] using h2, Tick.agree_of_imp (by intro f hq; simpa [e3] using hq) h3⟩
      rcases storeString_cases _ a.Ch b.Ch v herr with ⟨rfl, ea, eb⟩ | ⟨⟨x, rfl⟩, e⟩
      · rw [ea, eb]
        intro hp
        rcases hp with hp | hp
        · exact h1 hp
        · simp [assignsCh] at hp
      · intro _; exact e
    · simp only [SubResponse.store, hf] at herr ⊢
      simp only [↓reduceIte, String.reduceEq] at herr ⊢
      have e1 : assignsCh (k, v) = false := by cases v <;> simp [assignsCh, hf]
      have e3 : tickAssignedBy (k, v) = [] := by cases v <;> simp [tickAssignedBy, hf]
      refine ⟨by simpa [e1] using h1, ?_, Tick.agree_of_imp (by intro f hq; simpa [e3] using hq) h3⟩
      rcases storeInt_cases _ a.Ts b.Ts v herr with ⟨rfl, ea, eb⟩ | ⟨⟨x, rfl⟩, e⟩
      · rw [ea, eb]
        intro hp
        rcases hp with hp | hp
        · exact h2 hp
        · simp [assignsTs] at hp
      · intro _; exact e
    · simp only [SubResponse.store, hf] at herr ⊢
      simp only [↓reduceIte, String.reduceEq] at herr ⊢
      have e1 : assignsCh (k, v) = false := by cases v <;> simp [assignsCh, hf]
      have e2 : assignsTs (k, v) = false := by cases v <;> simp [assignsTs, hf]
      refine ⟨by simpa [e1] using h1, by simpa [e2] using h2, ?_⟩
      cases v with
      | null =>
        simp only [storeTick]
        exact Tick.agree_of_imp (by intro f hq; simpa [tickAssignedBy] using hq) h3
      | obj ms =>
        simp only [storeTick] at herr ⊢
        have := tick_decode_agree L ms PT a.Tick b.Tick none h3 herr
        refine Tick.agree_of_imp ?_ this
        intro f hq
        simpa [tickAssignedBy, hf] using hq
      | bool x => simp [storeTick] at herr
      | num x => simp [storeTick] at herr
      | str x => simp [storeTick] at herr
      | arr x => simp [storeTick] at herr

theorem envelope_decode_none (L : Lib) (ms : List (String × JSON)) :
    ∀ (a : SubResponse) (e : Option UnmarshalError),
      (SubResponse.decode L ms a e).2 = none → e = none := by
  induction ms with
  | nil => intro a e h; exact h
  | cons kv rest ih =>
    intro a e h
    obtain ⟨k, v⟩ := kv
    simp only [SubResponse.decode] at h
    exact (firstError_none _ _ (ih _ _ h)).1

theorem envelope_decode_agree (L : Lib) (ms : List (String × JSON)) :
    ∀ (pch pts : Prop) (PT : String → Prop) (a b : SubResponse) (e : Option UnmarshalError),
      SubResponse.agree pch pts PT a b → (SubResponse.decode L ms a e).2 = none →
      SubResponse.agree (pch ∨ ∃ kv ∈ ms, assignsCh kv = true)
        (pts ∨ ∃ kv ∈ ms, assignsTs kv = true)
        (fun f => PT f ∨ f ∈ ms.flatMap tickAssignedBy)
        (SubResponse.decode L ms a e).1 (SubResponse.decode L ms b e).1 := by
  induction ms with
  | nil =>
    intro pch pts PT a b e hab _
    obtain ⟨h1, h2, h3⟩ := hab
    exact ⟨by simpa using h1, by simpa using h2,
      Tick.agree_of_imp (fun f hq => by simpa using hq) h3⟩
  | cons kv rest ih =>
    intro pch pts PT a b e hab herr
    obtain ⟨k, v⟩ := kv
    simp only [SubResponse.decode] at herr ⊢
    have hs := (firstError_none _ _ (envelope_decode_none L rest _ _ herr)).2
    have h1 := envelope_store_agree L pch pts PT a b k v hab hs
    rw [← envelope_store_err L a b k v]
    obtain ⟨g1, g2, g3⟩ := ih _ _ _ _ _ (firstError e (SubResponse.store L a k v).2) h1 herr
    refine ⟨fun hq => g1 ?_, fun hq => g2 ?_, Tick.agree_of_imp ?_ g3⟩
    · simp only [List.mem_cons, exists_eq_or_imp] at hq
      tauto
    · simp only [List.mem_cons, exists_eq_or_imp] at hq
      tauto
    · intro f hq
      simp only [List.flatMap_cons, List.mem_append] at hq
      tauto

/-- A complete document that decodes without error gives the same envelope
whatever `subRes` held before. -/
theorem storeDocument_complete (L : Lib) (doc : JSON) (a b : SubResponse)
    (hc : Complete doc) (herr : (storeDocument L doc a).2 = none) :
    (storeDocument L doc a).1 = (storeDocument L doc b).1 := by
  cases doc with
  | obj ms =>
    simp only [storeDocument] at herr ⊢
    obtain ⟨c1, c2, c3⟩ := hc
    obtain ⟨g1, g2, g3⟩ := envelope_decode_agree L ms False False (fun _ => False) a b none
      ⟨False.elim, False.elim, False.elim, False.elim, False.elim, False.elim, False.elim,
        False.elim, False.elim, False.elim⟩ herr
    obtain ⟨t1, t2, t3, t4, t5, t6, t7, t8⟩ := g3
    generalize (SubResponse.decode L ms a none).1 = x at *
    generalize (SubResponse.decode L ms b none).1 = y at *
    obtain ⟨xc, xt, xk⟩ := x
    obtain ⟨yc, yt, yk⟩ := y
    obtain ⟨x1, x2, x3, x4, x5, x6, x7, x8⟩ := xk
    obtain ⟨y1, y2, y3, y4, y5, y6, y7, y8⟩ := yk
    simp only [Tick.names, List.mem_cons, List.mem_singleton, List.not_mem_nil, or_false,
      forall_eq_or_imp, forall_eq] at c3
    simp only at g1 g2 t1 t2 t3 t4 t5 t6 t7 t8
    rw [g1 (Or.inr c1), g2 (Or.inr c2), t1 (Or.inr c3.1), t2 (Or.inr c3.2.1),
      t3 (Or.inr c3.2.2.1), t4 (Or.inr c3.2.2.2.1), t5 (Or.inr c3.2.2.2.2.1),
      t6 (Or.inr c3.2.2.2.2.2.1), t7 (Or.inr c3.2.2.2.2.2.2.1),
      t8 (Or.inr c3.2.2.2.2.2.2.2)]
  | null => exact absurd hc (by simp [Complete])
  | bool x => exact absurd hc (by simp [Complete])
  | num x => exact absurd hc (by simp [Complete])
  | str x => exact absurd hc (by simp [Complete])
  | arr x => exact absurd hc (by simp [Complete])

theorem recvRecords_append (xs ys : List Event) :
    recvRecords (xs ++ ys) = recvRecords xs ++ recvRecords ys := by
  induction xs with
  | nil => rfl
  | cons e rest ih =>
    cases e with
    | log l => cases l <;> simp [recvRecords, ih]
    | _ => simp [recvRecords, ih]

theorem recvRecords_readerBody (L : Lib) (b : SubResponse) (m : Bytes) :
    recvRecords (readerBody L b m).2 =
      match (jsonUnmarshal L (gzipCompress L m).1 b).2 with
      | none => [(jsonUnmarshal L (gzipCompress L m).1 b).1]
      | some _ => [] := by
  simp only [readerBody, recvRecords_append]
  cases (gzipCompress L m).2 <;> cases (jsonUnmarshal L (gzipCompress L m).1 b).2 <;>
    simp [recvRecords]

theorem recvRecords_readerBody_complete (L : Lib) (b : SubResponse) (m : Bytes)
    (hc : FrameComplete L m) :
    recvRecords (readerBody L b m).2 = recvRecords (readerBody L SubResponse.zero m).2 ∧
    ((jsonUnmarshal L (gzipCompress L m).1 b).2 = none →
      (readerBody L b m).1 = (readerBody L SubResponse.zero m).1) := by
  have herr := jsonUnmarshal_err L (gzipCompress L m).1 b SubResponse.zero
  have hval : (jsonUnmarshal L (gzipCompress L m).1 b).2 = none →
      (jsonUnmarshal L (gzipCompress L m).1 b).1
        = (jsonUnmarshal L (gzipCompress L m).1 SubResponse.zero).1 := by
    intro hn
    rw [herr] at hn
    unfold jsonUnmarshal at hn ⊢
    cases hs : L.jsonScan (gzipCompress L m).1 with
    | error msg => simp [hs] at hn
    | ok doc =>
      simp only [hs] at hn ⊢
      have hcd := hc doc hs hn
      rw [storeDocument_err L doc SubResponse.zero b] at hn
      exact storeDocument_complete L doc b SubResponse.zero hcd hn
  refine ⟨?_, fun hn => by simpa [readerBody] using hval hn⟩
  rw [recvRecords_readerBody, recvRecords_readerBody, ← herr]
  cases hn : (jsonUnmarshal L (gzipCompress L m).1 b).2 with
  | none => simp [hval hn]
  | some e => rfl

/-- C3 on three frames read in `streaming`. `not a gzip frame`: inflation
fails, the gzip error is the one line logged, `subRes` is unchanged.
The frame that inflates to `not json`: nothing is logged, `subRes` is
unchanged. The frame `{"ts":"a","ch":"y"}`, whose `ts` has the wrong type:
nothing is logged, and `subRes` now holds `Ch = "y"`. -/
theorem C3_decode_failure_logs_gzip_errors_only_witness :
    streaming.reader = .running ∧ (∀ c, streaming.main ≠ .returned c) ∧
    (∀ d, sampleLib.jsonScan [] ≠ .ok d) ∧
    (gzipCompress sampleLib frameNotGzip).2 ≠ none ∧
    (jsonUnmarshal sampleLib (gzipCompress sampleLib frameNotJSON).1 streaming.subRes).2
      ≠ none ∧
    (jsonUnmarshal sampleLib (gzipCompress sampleLib frameTsString).1 streaming.subRes).2
      ≠ none ∧
    (∃ s1, step sampleLib streaming (.read (.msg frameNotGzip)) = some (s1,
        [.read (.msg frameNotGzip), .log (.err "" "gzip: invalid header")]) ∧
      s1.subRes = SubResponse.zero) ∧
    (∃ s1, step sampleLib streaming (.read (.msg frameNotJSON)) = some (s1,
        [.read (.msg frameNotJSON)]) ∧
      s1.subRes = SubResponse.zero) ∧
    (∃ s1, step sampleLib streaming (.read (.msg frameTsString)) = some (s1,
        [.read (.msg frameTsString)]) ∧
      s1.subRes = ⟨"y", 0, Tick.zero⟩) := by
  have h1 : streaming.reader = .running := rfl
  have h2 : ∀ c, streaming.main ≠ .returned c := by intro c; simp [streaming]
  have h3 : ∀ d, sampleLib.jsonScan [] ≠ .ok d := by intro d h; cases h
  have h4 : (gzipCompress sampleLib frameNotGzip).2 ≠ none := by decide
  have h5 : (jsonUnmarshal sampleLib (gzipCompress sampleLib frameNotJSON).1
      streaming.subRes).2 ≠ none := by decide
  have h6 : (jsonUnmarshal sampleLib (gzipCompress sampleLib frameTsString).1
      streaming.subRes).2 ≠ none := by decide
  obtain ⟨a, a1, _, _, a4, _⟩ := C3_decode_failure_logs_gzip_errors_only sampleLib streaming
    frameNotGzip h1 h2 h3 (Or.inl h4)
  obtain ⟨b, b1, _, _, b4, _⟩ := C3_decode_failure_logs_gzip_errors_only sampleLib streaming
    frameNotJSON h1 h2 h3 (Or.inr h5)
  obtain ⟨c, c1, _, _, c4, _⟩ := C3_decode_failure_logs_gzip_errors_only sampleLib streaming
    frameTsString h1 h2 h3 (Or.inr h6)
  have za : (gzipCompress sampleLib frameNotGzip).2 = some "gzip: invalid header" := by decide
  have zb : (gzipCompress sampleLib frameNotJSON).2 = none := by decide
  have zc : (gzipCompress sampleLib frameTsString).2 = none := by decide
  rw [za] at a1
  rw [zb] at b1
  rw [zc] at c1
  refine ⟨h1, h2, h3, h4, h5, h6, ⟨a, a1, ?_⟩, ⟨b, b1, ?_⟩, ⟨c, c1, ?_⟩⟩
  · rw [a4]; decide
  · rw [b4]; decide
  · rw [c4]; decide

/-- C3, the claim as stated fails: the frame of `silentDropRun` inflates to
`not json`, `json.Unmarshal` returns a syntax error for it, and the run logs
nothing for that frame: the read is the last event. -/
theorem C3_parse_failure_is_not_logged :
    gzipCompress sampleLib frameNotJSON = (textNotJSON, none) ∧
    (jsonUnmarshal sampleLib textNotJSON SubResponse.zero).2
      = some (.syntaxError "invalid character 'o' in literal null (expecting 'u')") ∧
    run sampleLib init silentDropRun = some (streaming, silentDropTrace) ∧
    silentDropTrace.getLast? = some (.read (.msg frameNotJSON)) ∧
    (∀ e ∈ silentDropTrace, ∀ label x, e ≠ .log (.err label x)) := by
  refine ⟨by decide, by decide, by decide, by decide, ?_⟩
  intro e he label x hx
  subst hx
  revert he
  simp [silentDropTrace]

/-- C7 on `streaming`: the frame `not a gzip frame` is read, a heartbeat is sent, and
then the frame `{"ch":"x"}` is read and logged. -/
theorem C7_malformed_frame_does_not_stop_the_reader_witness :
    Malformed sampleLib frameNotGzip ∧ WellFormed sampleLib frameChX ∧
    run sampleLib streaming [.read (.msg frameNotGzip), .selTick tickTime, .heartbeat none]
      = some (streaming,
          [.read (.msg frameNotGzip), .log (.err "" "gzip: invalid header"),
            .write .heartbeat 1 (bytesOf tickTime.text) none]) ∧
    step sampleLib streaming (.read (.msg frameChX))
      = some ({ streaming with subRes := ⟨"x", 0, Tick.zero⟩ },
          [.read (.msg frameChX), .log (.recv ⟨"x", 0, Tick.zero⟩)]) := by
  have hm : Malformed sampleLib frameNotGzip := Or.inl (by decide)
  have hg : WellFormed sampleLib frameChX := ⟨by decide, by decide⟩
  have hrun : run sampleLib streaming
      (.read (.msg frameNotGzip) :: [.selTick tickTime, .heartbeat none])
      = some (streaming,
          [.read (.msg frameNotGzip), .log (.err "" "gzip: invalid header"),
            .write .heartbeat 1 (bytesOf tickTime.text) none]) := by decide
  have hmid : ∀ c ∈ [Choice.selTick tickTime, Choice.heartbeat none],
      ∀ r, c ≠ Choice.read r := by
    intro c hc r
    simp only [List.mem_cons, List.mem_singleton, List.not_mem_nil, or_false] at hc
    rcases hc with rfl | rfl <;> simp
  have h := C7_malformed_frame_does_not_stop_the_reader sampleLib streaming streaming
    frameNotGzip frameChX [.selTick tickTime, .heartbeat none] _ rfl hm hg
    hmid hrun (by intro c; simp [streaming])
  refine ⟨hm, hg, hrun, ?_⟩
  rw [h.2.2]
  decide

/-- C2, as the code has it: the reader is running and reads a frame whose
payload is a JSON object with no key that selects the `tick` field (no key
equal to `tick`, nor equal to it under case folding). Then the step is
taken, the `Tick` of `subRes` is what it was before the frame, and so is the
`Tick` of the envelope logged for the frame, which is logged whenever the
document decodes without error. So the logged tick fields are all zero when
those of `subRes` were zero before the frame (as they are when `main` starts
the reader), and otherwise they are what earlier frames left there. -/
theorem C2_absent_tick_keeps_the_buffer_tick (L : Lib) (s : State) (m : Bytes)
    (members : List (String × JSON))
    (hr : s.reader = .running) (halive : ∀ c, s.main ≠ .returned c)
    (hdoc : L.jsonScan (gzipCompress L m).1 = .ok (.obj members))
    (hno : ∀ kv ∈ members, findField SubResponse.names kv.1 ≠ some "tick") :
    ∃ s1 ev, step L s (.read (.msg m)) = some (s1, ev) ∧
      s1.subRes.Tick = s.subRes.Tick ∧
      ((jsonUnmarshal L (gzipCompress L m).1 s.subRes).2 = none →
        Event.log (.recv s1.subRes) ∈ ev) ∧
      ∀ v, Event.log (.recv v) ∈ ev →
        v.Tick = s.subRes.Tick ∧
        (s.subRes.Tick = Tick.zero →
          v.Tick.ID = 0 ∧ v.Tick.Count = 0 ∧ v.Tick.Open = 0 ∧ v.Tick.Close = 0 ∧
          v.Tick.Low = 0 ∧ v.Tick.High = 0 ∧ v.Tick.Amount = 0 ∧ v.Tick.Volume = 0) := by
  have hu : (jsonUnmarshal L (gzipCompress L m).1 s.subRes).1.Tick = s.subRes.Tick := by
    simp only [jsonUnmarshal, hdoc, storeDocument]
    exact SubResponse.decode_tick L members hno _ _
  have hb : (readerBody L s.subRes m).1 = (jsonUnmarshal L (gzipCompress L m).1 s.subRes).1 := rfl
  refine ⟨_, _, step_read_msg L s m hr halive, ?_, ?_, ?_⟩
  · simp only [hb, hu]
  · intro hn
    simp only [readerBody, hn, List.mem_cons, List.mem_append, List.mem_singleton, true_or,
      or_true]
  · intro v hv
    have hvt : v.Tick = s.subRes.Tick := by
      rcases List.mem_cons.1 hv with hv | hv
      · cases hv
      · simp only [readerBody, List.mem_append] at hv
        rcases hv with hv | hv
        · split at hv <;> simp at hv
        · split at hv
          · simp only [List.mem_singleton, Event.log.injEq, LogLine.recv.injEq] at hv
            rw [hv, hu]
          · simp at hv
    refine ⟨hvt, fun hz => ?_⟩
    rw [hvt, hz]
    simp [Tick.zero]

/-- C2 on the frame `{"ch":"x"}` read in `streaming`, where `subRes` is
still zero: the logged envelope has a zero tick. -/
theorem C2_absent_tick_keeps_the_buffer_tick_witness :
    streaming.reader = .running ∧ (∀ c, streaming.main ≠ .returned c) ∧
    sampleLib.jsonScan (gzipCompress sampleLib frameChX).1 = .ok (.obj [("ch", .str "x")]) ∧
    (∀ kv ∈ [("ch", JSON.str "x")], findField SubResponse.names kv.1 ≠ some "tick") ∧
    ∃ s1 ev, step sampleLib streaming (.read (.msg frameChX)) = some (s1, ev) ∧
      s1.subRes.Tick = Tick.zero := by
  have h1 : streaming.reader = .running := rfl
  have h2 : ∀ c, streaming.main ≠ .returned c := by intro c; simp [streaming]
  have h3 : sampleLib.jsonScan (gzipCompress sampleLib frameChX).1
      = .ok (.obj [("ch", .str "x")]) := by rfl
  have h4 : ∀ kv ∈ [("ch", JSON.str "x")], findField SubResponse.names kv.1 ≠ some "tick" := by
    intro kv hkv
    simp only [List.mem_singleton] at hkv
    subst hkv
    decide
  obtain ⟨s1, ev, e1, e2, _⟩ := C2_absent_tick_keeps_the_buffer_tick sampleLib streaming
    frameChX _ h1 h2 h3 h4
  exact ⟨h1, h2, h3, h4, s1, ev, e1, e2⟩

/-- C2, the claim as stated fails: in `staleTickRun` the frame
`{"tick":{"id":5}}` is decoded first, then the frame `{"ch":"x"}`, whose
document has no `tick` key; the envelope logged for that second frame has
`Tick.ID = 5`, not `0`. -/
theorem C2_stale_tick_is_logged :
    sampleLib.jsonScan (gzipCompress sampleLib frameChX).1 = .ok (.obj [("ch", .str "x")]) ∧
    run sampleLib init staleTickRun
      = some (⟨.selecting, .running, ⟨"x", 0, ⟨5, 0, 0, 0, 0, 0, 0, 0⟩⟩⟩, staleTickTrace) ∧
    staleTickTrace.getLast? = some (.log (.recv ⟨"x", 0, ⟨5, 0, 0, 0, 0, 0, 0, 0⟩⟩)) ∧
    (⟨"x", 0, ⟨5, 0, 0, 0, 0, 0, 0, 0⟩⟩ : SubResponse).Tick.ID ≠ 0 :=
  ⟨rfl, by decide, by decide, by decide⟩

theorem step_read_closed (L : Lib) (s : State) (code : Nat) (e : String) (replied : Bool)
    (hr : s.reader = .running) (halive : ∀ c, s.main ≠ .returned c)
    (hg : replied = true → s.main ≠ .grace) :
    step L s (.read (.closed code e replied))
      = some ({ s with reader := .exited },
          (if replied then [.closeReply (FormatCloseMessage code "")] else [])
            ++ [.read (.closed code e replied), .log (.err "read:" e), .closeDone]) := by
  obtain ⟨mn, r, b⟩ := s
  simp only at hr halive hg
  subst hr
  cases replied <;> cases mn <;> simp [step] at halive hg ⊢

/-- The reader of `step` is `readerLoop`: while `main` has not returned (and
has not sent its close frame), a run made of reads alone, in which only the
last read may be other than a message, does what `readerLoop` does on those
results, from the `subRes` of the state. -/
theorem run_reads (L : Lib) (rs : List ReadResult) :
    ∀ (s : State), s.reader = .running → (∀ c, s.main ≠ .returned c) → s.main ≠ .grace →
      (∀ pre r post, rs = pre ++ r :: post → (∀ m, r ≠ .msg m) → post = []) →
      ∃ s1, run L s (rs.map Choice.read) = some (s1, readerLoop L s.subRes rs) ∧
        s1.main = s.main := by
  induction rs with
  | nil => intro s _ _ _ _; exact ⟨s, rfl, rfl⟩
  | cons r rest ih =>
    intro s hr halive hg hlast
    cases r with
    | err e =>
      have hrest : rest = [] := hlast [] _ rest rfl (by simp)
      subst hrest
      refine ⟨{ s with reader := .exited }, ?_, rfl⟩
      simp only [List.map, run, step_read_err L s e hr halive, readerLoop, List.append_nil]
    | closed code e replied =>
      have hrest : rest = [] := hlast [] _ rest rfl (by simp)
      subst hrest
      refine ⟨{ s with reader := .exited }, ?_, rfl⟩
      simp only [List.map, run, step_read_closed L s code e replied hr halive (fun _ => hg),
        readerLoop, List.append_nil]
    | msg m =>
      obtain ⟨s1, h1, h2⟩ := ih { s with subRes := (readerBody L s.subRes m).1 } hr halive hg
        (fun pre r post hh => hlast (.msg m :: pre) r post (by simp [hh]))
      refine ⟨s1, ?_, h2⟩
      simp only [List.map, run, step_read_msg L s m hr halive, h1, readerLoop,
        List.cons_append]

theorem readerLoop_fresh (L : Lib) (rs : List ReadResult)
    (hc : ∀ m, ReadResult.msg m ∈ rs → FrameComplete L m) :
    ∀ b, recvRecords (readerLoop L b rs) = recvRecords (readerLoopFresh L rs) := by
  induction rs with
  | nil => intro b; rfl
  | cons r rest ih =>
    intro b
    cases r with
    | err e => rfl
    | closed code e replied => rfl
    | msg m =>
      simp only [readerLoop, readerLoopFresh, recvRecords_append]
      have h1 := (recvRecords_readerBody_complete L b m (hc m (List.mem_cons_self _ _))).1
      have h2 := ih (fun m hm => hc m (List.mem_cons_of_mem _ hm)) (readerBody L b m).1
      have h3 : ∀ xs, recvRecords (Event.read (.msg m) :: xs) = recvRecords xs := by
        intro xs; rfl
      rw [h3, h3, h1, h2]

/-- C10, as the code has it: for every sequence of `ReadMessage` results in
which each frame that decodes without error carries a complete document (an
object giving `ch` a string, `ts` a number and each of the eight tick fields
a number), the `recv:` records logged by the reader that decodes into the
shared `subRes` are the records logged by the reader that decodes each frame
into a fresh zero-valued `SubResponse`. -/
theorem C10_shared_buffer_equals_fresh_on_complete_frames (L : Lib) (rs : List ReadResult)
    (hc : ∀ m, ReadResult.msg m ∈ rs → FrameComplete L m) :
    recvRecords (readerLoop L SubResponse.zero rs) = recvRecords (readerLoopFresh L rs) :=
  readerLoop_fresh L rs hc SubResponse.zero

set_option maxRecDepth 100000 in
theorem frameComplete_frameFull : FrameComplete sampleLib frameFull := by
  intro doc hdoc _
  have h : sampleLib.jsonScan (gzipCompress sampleLib frameFull).1 = .ok docFull := by rfl
  rw [h] at hdoc
  cases hdoc
  refine ⟨⟨("ch", .str "market.btcusdt.kline.1min"), by simp, by decide⟩,
    ⟨("ts", .num "1700000000"), by simp, by decide⟩, ?_⟩
  decide

theorem frameComplete_frameNotJSON : FrameComplete sampleLib frameNotJSON := by
  intro doc hdoc _
  have h : sampleLib.jsonScan (gzipCompress sampleLib frameNotJSON).1
      = .error "invalid character 'o' in literal null (expecting 'u')" := by rfl
  rw [h] at hdoc
  cases hdoc

/-- C10 on the frames single-tick envelope, `not json`, single-tick envelope:
each is complete or does not decode, and both readers log the envelope
twice. -/
theorem C10_shared_buffer_equals_fresh_on_complete_frames_witness :
    (∀ m, ReadResult.msg m ∈ [ReadResult.msg frameFull, .msg frameNotJSON, .msg frameFull] →
      FrameComplete sampleLib m) ∧
    recvRecords (readerLoop sampleLib SubResponse.zero
      [.msg frameFull, .msg frameNotJSON, .msg frameFull])
      = recvRecords (readerLoopFresh sampleLib
          [.msg frameFull, .msg frameNotJSON, .msg frameFull]) := by
  have hc : ∀ m, ReadResult.msg m ∈ [ReadResult.msg frameFull, .msg frameNotJSON,
      .msg frameFull] → FrameComplete sampleLib m := by
    intro m hm
    simp only [List.mem_cons, ReadResult.msg.injEq, List.mem_singleton, List.not_mem_nil,
      or_false] at hm
    rcases hm with rfl | rfl | rfl
    · exact frameComplete_frameFull
    · exact frameComplete_frameNotJSON
    · exact frameComplete_frameFull
  exact ⟨hc, C10_shared_buffer_equals_fresh_on_complete_frames sampleLib _ hc⟩

/-- C10, the claim as stated fails: on the frames `{"tick":{"id":5}}` then
`{"ch":"x"}` the reader that shares `subRes` logs `Tick.ID = 5` for the
second frame, and the reader that decodes into a fresh `SubResponse` logs
`Tick.ID = 0` for it. -/
theorem C10_shared_buffer_differs_from_fresh :
    recvRecords (readerLoop sampleLib SubResponse.zero [.msg frameTick5, .msg frameChX])
      = [⟨"", 0, ⟨5, 0, 0, 0, 0, 0, 0, 0⟩⟩, ⟨"x", 0, ⟨5, 0, 0, 0, 0, 0, 0, 0⟩⟩] ∧
    recvRecords (readerLoopFresh sampleLib [.msg frameTick5, .msg frameChX])
      = [⟨"", 0, ⟨5, 0, 0, 0, 0, 0, 0, 0⟩⟩, ⟨"x", 0, ⟨0, 0, 0, 0, 0, 0, 0, 0⟩⟩] ∧
    recvRecords (readerLoop sampleLib SubResponse.zero [.msg frameTick5, .msg frameChX])
      ≠ recvRecords (readerLoopFresh sampleLib [.msg frameTick5, .msg frameChX]) := by
  decide

end Huobi
